import Mathlib

/-!
Verification development for the `utcx` course-planning engine.

The development shallowly embeds the Python sources:
  * `course.py`   — the `Semester` enumeration (only the variants the planner uses),
  * `graph.py`    — `parse_requisite_list` and `create_graph_from_courses`
                    (NetworkX directed graphs are embedded as explicit node/edge lists;
                    `uuid.uuid4()` is embedded as an external identifier stream
                    `stream : Nat → String` threaded through with a counter),
  * `pathing.py`  — `get_semester_type`, `is_course_available`, the backward
                    reachability pruning, the CP-SAT constraint model (embedded as a
                    decidable satisfaction predicate over boolean assignments), and the
                    two-phase driver `plan_course_schedule_cp` (the CP-SAT solver calls
                    are embedded as an oracle recording the solver outcomes; Python
                    exceptions are embedded with `Except`).
-/

namespace UTCX

/-- From `course.py`: the `Semester` enumeration (interval values omitted; the planner
only compares variants for equality and membership). -/
inductive Semester where
  | SUMMER_1
  | SUMMER_2
  | SUMMER_BOTH
  | FALL
  | WINTER
  | FALL_WINTER
deriving Repr, DecidableEq

/-- The Python float `0.5` (an exact binary float, compared only by equality), as
the rational 1/2, written as a literal so that kernel reduction of `decide` never
has to normalize. -/
def halfRat : ℚ := ⟨1, 2, by decide, Nat.coprime_one_left 2⟩


mutual

/-- A Python requisite-list element, as recursed over by `graph.py`
(`list[list | str]`): a string leaf or a nested list. -/
inductive ReqElem where
  | str (s : String)
  | list (l : ReqList)
deriving Repr

/-- A Python requisite list (mutual with `ReqElem` rather than `List ReqElem` so
that all recursion over requisite trees is structural). -/
inductive ReqList where
  | nil
  | cons (e : ReqElem) (rest : ReqList)
deriving Repr

end

/-- Convenience constructor for writing concrete requisite lists. -/
def reqList : List ReqElem → ReqList :=
  fun l => l.foldr ReqList.cons ReqList.nil

mutual

def reqElemDecEq : (a b : ReqElem) → Decidable (a = b)
  | .str s, .str t =>
    if h : s = t then .isTrue (by rw [h]) else .isFalse (by simp [h])
  | .str _, .list _ => .isFalse (by simp)
  | .list _, .str _ => .isFalse (by simp)
  | .list l, .list m =>
    match reqListDecEq l m with
    | .isTrue h => .isTrue (by rw [h])
    | .isFalse h => .isFalse (by simp [h])

def reqListDecEq : (l m : ReqList) → Decidable (l = m)
  | .nil, .nil => .isTrue rfl
  | .nil, .cons _ _ => .isFalse (by simp)
  | .cons _ _, .nil => .isFalse (by simp)
  | .cons a l, .cons b m =>
    match reqElemDecEq a b, reqListDecEq l m with
    | .isTrue h1, .isTrue h2 => .isTrue (by rw [h1, h2])
    | .isFalse h1, _ => .isFalse (by simp [h1])
    | _, .isFalse h2 => .isFalse (by simp [h2])

end

instance : DecidableEq ReqElem := reqElemDecEq

instance : DecidableEq ReqList := reqListDecEq

/-- NetworkX node attributes used by `graph.py` / `pathing.py`.  Every field is
optional, mirroring a Python attribute dict; use sites apply the same defaults the
code passes to `dict.get`. -/
structure NodeAttrs where
  logic : Option Bool := none
  type : Option ReqElem := none
  color : Option (Nat × Nat × Nat) := none
  title : Option String := none
  sessions : Option (List Semester) := none
  length : Option ℚ := none
deriving Repr, DecidableEq

/-- A NetworkX `DiGraph`: insertion-ordered nodes with attribute dicts, and a
duplicate-free insertion-ordered edge list (NetworkX keeps at most one directed
edge per ordered pair). -/
structure Graph where
  nodes : List (String × NodeAttrs) := []
  edges : List (String × String) := []
deriving Repr, DecidableEq

def Graph.hasNode (g : Graph) (n : String) : Bool :=
  g.nodes.any (fun p => decide (p.1 = n))

/-- Attribute dict of a node (empty dict when the node is absent; call sites in the
sources only read attributes of present nodes). -/
def Graph.attrs (g : Graph) (n : String) : NodeAttrs :=
  (((g.nodes.find? (fun p => decide (p.1 = n))).map Prod.snd)).getD {}

/-- NetworkX attribute update: supplied keys overwrite, absent keys are kept. -/
def mergeAttrs (old upd : NodeAttrs) : NodeAttrs :=
  { logic := upd.logic <|> old.logic
    type := upd.type <|> old.type
    color := upd.color <|> old.color
    title := upd.title <|> old.title
    sessions := upd.sessions <|> old.sessions
    length := upd.length <|> old.length }

/-- `g.add_node(n, **upd)`: merge attributes into an existing node, else append. -/
def Graph.add_node (g : Graph) (n : String) (upd : NodeAttrs) : Graph :=
  if g.hasNode n then
    { g with nodes := g.nodes.map (fun p => if p.1 = n then (p.1, mergeAttrs p.2 upd) else p) }
  else
    { g with nodes := g.nodes ++ [(n, upd)] }

/-- NetworkX's implicit node creation: add a node with an empty attribute dict
unless present. -/
def Graph.ensureNode (g : Graph) (n : String) : Graph :=
  if g.hasNode n then g else { g with nodes := g.nodes ++ [(n, {})] }

/-- `g.add_edge(u, v)`: create missing endpoints with empty attribute dicts, and add
the edge unless already present. -/
def Graph.add_edge (g : Graph) (u v : String) : Graph :=
  let g2 := (g.ensureNode u).ensureNode v
  if (u, v) ∈ g2.edges then g2 else { g2 with edges := g2.edges ++ [(u, v)] }

/-- `g.predecessors(v)`: sources of in-edges of `v`, in edge-insertion order. -/
def Graph.predecessors (g : Graph) (v : String) : List String :=
  (g.edges.filter (fun e => decide (e.2 = v))).map Prod.fst

/-- Number of outgoing edges of a node. -/
def outDeg (g : Graph) (n : String) : Nat :=
  (g.edges.filter (fun e => decide (e.1 = n))).length

/-- Number of incoming edges of a node. -/
def inDeg (g : Graph) (n : String) : Nat :=
  (g.edges.filter (fun e => decide (e.2 = n))).length

mutual

/-- From `graph.py`: `parse_requisite_list(req_list, course_id, g, data)`.  The uuid
draw `str(uuid.uuid4().hex[:8])` is embedded as `stream c` together with the
incremented counter `c`; `data` is the key set of the course dict. -/
def parse_requisite_list (req_list : ReqList) (course_id : String) (g : Graph)
    (data : List String) (c : Nat) (stream : Nat → String) : Graph × Nat :=
  match req_list with
  | .nil => (g, c)
  | .cons _ .nil => (g, c)
  | .cons _ (.cons (ReqElem.list l) .nil) =>
    parse_requisite_list l course_id g data c stream
  | .cons _ (.cons (ReqElem.str ch) .nil) =>
    if ch ∈ data then
      let g := if g.hasNode ch then g else g.add_node ch { logic := some false }
      (g.add_edge ch course_id, c)
    else (g, c)
  | .cons op_type children =>
    let v_id := stream c
    let g := g.add_node v_id
      { type := some op_type, logic := some true, color := some (255, 255, 255) }
    let g := g.add_edge v_id course_id
    parse_children children v_id g data (c + 1) stream

/-- The `for item in children` loop in the virtual-logic-node branch of
`parse_requisite_list`. -/
def parse_children (items : ReqList) (v_id : String) (g : Graph)
    (data : List String) (c : Nat) (stream : Nat → String) : Graph × Nat :=
  match items with
  | .nil => (g, c)
  | .cons item rest =>
    let gc :=
      match item with
      | ReqElem.list l => parse_requisite_list l v_id g data c stream
      | ReqElem.str it =>
        if it ∈ data then
          let g := if g.hasNode it then g
                   else g.add_node it { logic := some false, color := some (255, 255, 255) }
          (g.add_edge it v_id, c)
        else (g, c)
    parse_children rest v_id gc.1 data gc.2 stream

end

/-- Course metadata as consumed by `create_graph_from_courses`
(`get_title`, `get_semesters`, `get_prerequisites`). -/
structure Course where
  title : String
  semesters : List Semester
  prereq_list : ReqList
deriving Repr, DecidableEq

def allowed_sems : List Semester := [Semester.FALL, Semester.WINTER, Semester.FALL_WINTER]

/-- `name[-2] == "Y"` (total embedding: `false` for names shorter than two
characters, where the Python code would raise IndexError). -/
def nameSecondLastIsY (name : String) : Bool :=
  match name.data.reverse with
  | _ :: y :: _ => decide (y = 'Y')
  | _ => false

/-- The attribute dict `create_graph_from_courses` attaches to a course node:
title, the sessions filtered to the planner's allowed kinds, the length derived
from the `Y`-code convention, and `logic = False`. -/
def courseNodeAttrs (nc : String × Course) : NodeAttrs :=
  { title := some nc.2.title
    sessions := some (nc.2.semesters.filter (fun s => decide (s ∈ allowed_sems)))
    length := some (if nameSecondLastIsY nc.1 then (1 : ℚ) else halfRat)
    logic := some false }

/-- One iteration of the `for course in course_list` loop of
`create_graph_from_courses`: add the course's item node, then parse its
prerequisite list if non-empty. -/
def create_graph_course_step (course_list : List (String × Course))
    (stream : Nat → String) (p : Graph × Nat) (nc : String × Course) : Graph × Nat :=
  if nc.2.prereq_list ≠ ReqList.nil then
    parse_requisite_list nc.2.prereq_list nc.1 (p.1.add_node nc.1 (courseNodeAttrs nc))
      (course_list.map Prod.fst) p.2 stream
  else (p.1.add_node nc.1 (courseNodeAttrs nc), p.2)

/-- From `graph.py`: `create_graph_from_courses(course_list)`, with the uuid source
made explicit as `stream` (counter starts at 0 and is threaded through the builds). -/
def create_graph_from_courses (course_list : List (String × Course))
    (stream : Nat → String) : Graph :=
  (course_list.foldl (create_graph_course_step course_list stream) (⟨[], []⟩, 0)).1

/-! ## pathing.py: term calendar and availability -/

/-- From `pathing.py`: `get_semester_type(semester_index)`. -/
def get_semester_type (semester_index : Nat) : Semester :=
  if semester_index % 2 = 0 then Semester.FALL else Semester.WINTER

/-- From `pathing.py`: `is_course_available(course_info, semester_index)`.
`course_info` is the node attribute dict.  The Python function implicitly returns
`None` when the length is neither `0.5` nor `1.0`; its only caller uses the result
as a truth value, so that case is embedded as `false`. -/
def is_course_available (course_info : NodeAttrs) (semester_index : Nat) : Bool :=
  let sessions := course_info.sessions.getD []
  let required_type := get_semester_type semester_index
  if course_info.length.getD halfRat = halfRat then
    if required_type = Semester.FALL then decide (Semester.FALL ∈ sessions)
    else decide (Semester.WINTER ∈ sessions)
  else if course_info.length = some 1 then decide (required_type = Semester.FALL)
  else false

/-- `2 if course_info.get("length", 0.5) == 1.0 else 1` (used at several places in
`plan_course_schedule_cp`). -/
def course_length_semesters (course_info : NodeAttrs) : Nat :=
  if course_info.length.getD halfRat = 1 then 2 else 1

/-! ## pathing.py: the CP-SAT model as a satisfaction predicate

`plan_course_schedule_cp` creates boolean variables `takes[c, s]` for relevant course
nodes and `active[ln, s]` for relevant logic nodes and emits constraints on them.
The model is embedded as a decidable predicate on assignments: an `Assignment` gives
a value to every variable (including the `max_finish_semester` integer), and
`satisfiesModel` holds exactly when all emitted constraints are satisfied. -/

/-- A valuation of the CP-SAT decision variables. -/
structure Assignment where
  takes : String → Nat → Bool
  active : String → Nat → Bool
  finish : Nat


/-- `course_nodes = {n in relevant_nodes if n in g and not g.nodes[n].get("logic", False)}`. -/
def courseNodesOf (g : Graph) (relevant : List String) : List String :=
  relevant.filter (fun n => g.hasNode n && !((g.attrs n).logic.getD false))

/-- `logic_nodes = {n in relevant_nodes if n in g and g.nodes[n].get("logic", True)}`
(note the differing default). -/
def logicNodesOf (g : Graph) (relevant : List String) : List String :=
  relevant.filter (fun n => g.hasNode n && ((g.attrs n).logic.getD true))

/-- Cardinality constraints for one course node: `AddExactlyOne` for targets,
`AddAtMostOne` otherwise. -/
def cardOK (asg : Assignment) (max_semesters : Nat) (target_courses : List String)
    (c : String) : Bool :=
  let count := ((List.range max_semesters).filter (fun s => asg.takes c s)).length
  if c ∈ target_courses then decide (count = 1) else decide (count ≤ 1)

/-- Availability/duration constraints for one course node: `takes[c, s] == 0` when
`is_course_available` fails, and when the course is two semesters long and `s` is
the final semester. -/
def availOK (g : Graph) (asg : Assignment) (max_semesters : Nat) (c : String) : Bool :=
  (List.range max_semesters).all (fun s =>
    (if !is_course_available (g.attrs c) s then !asg.takes c s else true) &&
    (if course_length_semesters (g.attrs c) = 2 && decide (s = max_semesters - 1)
     then !asg.takes c s else true))

/-- The relevant predecessors of a node, as computed in the logic-node branch. -/
def relevantPreds (g : Graph) (relevant : List String) (v : String) : List String :=
  (g.predecessors v).filter (fun p => decide (p ∈ relevant))

/-- The auxiliary `done_{pred}_by_s{s_v}` boolean of a course predecessor of a gate:
`AddMaxEquality` ties it to the disjunction of the valid earlier starts (`false`
when there is no valid start index). -/
def predDoneBy (g : Graph) (asg : Assignment) (pred_course : String) (s_v : Nat) : Bool :=
  let pred_len := course_length_semesters (g.attrs pred_course)
  ((List.range s_v).filter (fun s_p => decide (s_p + pred_len ≤ s_v))).any
    (fun s_p => asg.takes pred_course s_p)

/-- The done-by-`s_v` value of one predecessor of a gate: gates contribute their own
`active` variable, courses their `done_by` auxiliary. -/
def predDoneVal (g : Graph) (asg : Assignment) (pred_id : String) (s_v : Nat) : Bool :=
  if (g.attrs pred_id).logic.getD false then asg.active pred_id s_v
  else predDoneBy g asg pred_id s_v

/-- The gate-activation constraints emitted for logic node `v_logic` at index `s_v`
(the body of the `else: # v is Logic` branch).  The predecessors-empty branch
mirrors `model.Add(active == 1)`; an unrecognized gate type mirrors
`model.Add(active == 0)`. -/
def gateOK (g : Graph) (relevant : List String) (asg : Assignment)
    (v_logic : String) (s_v : Nat) : Bool :=
  let preds := relevantPreds g relevant v_logic
  if preds.isEmpty then asg.active v_logic s_v
  else
    let dones := preds.map (fun p => predDoneVal g asg p s_v)
    match (g.attrs v_logic).type with
    | some (ReqElem.str "all") =>
      -- AddBoolAnd(dones).OnlyEnforceIf(active)  and  (not done) -> (not active), each done
      (!asg.active v_logic s_v || dones.all id) &&
      dones.all (fun d => d || !asg.active v_logic s_v)
    | some (ReqElem.str "any") =>
      -- AddBoolOr(dones).OnlyEnforceIf(active);  done -> active, each done;
      -- AddBoolAnd(negated dones).OnlyEnforceIf(active.Not())
      (!asg.active v_logic s_v || dones.any id) &&
      dones.all (fun d => !d || asg.active v_logic s_v) &&
      (asg.active v_logic s_v || dones.all (fun d => !d))
    | _ => !asg.active v_logic s_v

/-- The constraints emitted while processing one relevant edge `(u, v)`. -/
def edgeOK (g : Graph) (relevant : List String) (asg : Assignment)
    (max_semesters : Nat) (u v : String) : Bool :=
  let u_is_logic := (g.attrs u).logic.getD false
  let v_is_logic := (g.attrs v).logic.getD false
  if !v_is_logic then
    if !u_is_logic then
      -- Course -> Course prerequisite timing
      let u_len := course_length_semesters (g.attrs u)
      (List.range max_semesters).all (fun s_v =>
        let starts := (List.range s_v).filter (fun s_u => decide (s_u + u_len ≤ s_v))
        if starts.isEmpty then !asg.takes v s_v
        else !asg.takes v s_v || starts.any (fun s_u => asg.takes u s_u))
    else
      -- AddImplication(takes[v, s_v], active[u, s_v])
      (List.range max_semesters).all (fun s_v => !asg.takes v s_v || asg.active u s_v)
  else
    (List.range (max_semesters + 1)).all (fun s_v => gateOK g relevant asg v s_v)

/-- The edges the constraint loop processes: both endpoints relevant. -/
def relevantEdges (g : Graph) (relevant : List String) : List (String × String) :=
  g.edges.filter (fun e => decide (e.1 ∈ relevant) && decide (e.2 ∈ relevant))

/-- The per-semester capacity constraint: courses started at `s` plus year-long
courses started at `s - 1` may not exceed `max_courses_per_semester`. -/
def capOK (g : Graph) (relevant : List String) (asg : Assignment)
    (max_courses_per_semester : Nat) (s : Nat) : Bool :=
  let course_nodes := courseNodesOf g relevant
  let started := (course_nodes.filter (fun c => asg.takes c s)).length
  let carried :=
    if s > 0 then
      (course_nodes.filter (fun c =>
        decide ((g.attrs c).length.getD halfRat = 1) && asg.takes c (s - 1))).length
    else 0
  decide (started + carried ≤ max_courses_per_semester)

/-- The `max_finish_semester` variable: domain `[0, max_semesters - 1]` plus the
lower bounds `max_finish_semester >= s + len - 1` enforced by each `takes[c, s]`
whose finishing semester fits the horizon. -/
def finishOK (g : Graph) (relevant : List String) (asg : Assignment)
    (max_semesters : Nat) : Bool :=
  decide (asg.finish ≤ max_semesters - 1) &&
  (courseNodesOf g relevant).all (fun c =>
    (List.range max_semesters).all (fun s =>
      let finish_semester := s + course_length_semesters (g.attrs c) - 1
      if finish_semester < max_semesters then
        !asg.takes c s || decide (asg.finish ≥ finish_semester)
      else true))

/-- The complete phase-1 constraint set of `plan_course_schedule_cp`, evaluated on
an assignment: cardinality, availability, all per-edge constraints, per-semester
capacity, and the `max_finish_semester` bounds. -/
def satisfiesModel (g : Graph) (relevant : List String) (target_courses : List String)
    (max_semesters max_courses_per_semester : Nat) (asg : Assignment) : Bool :=
  (courseNodesOf g relevant).all (fun c => cardOK asg max_semesters target_courses c) &&
  (courseNodesOf g relevant).all (fun c => availOK g asg max_semesters c) &&
  (relevantEdges g relevant).all (fun e => edgeOK g relevant asg max_semesters e.1 e.2) &&
  (List.range max_semesters).all (fun s => capOK g relevant asg max_courses_per_semester s) &&
  finishOK g relevant asg max_semesters

/-- The phase-2 constraint set: phase 1 plus the frozen bound
`max_finish_semester <= optimal_time`. -/
def satisfiesPhase2 (g : Graph) (relevant : List String) (target_courses : List String)
    (max_semesters max_courses_per_semester : Nat) (optimal_time : Nat)
    (asg : Assignment) : Bool :=
  satisfiesModel g relevant target_courses max_semesters max_courses_per_semester asg &&
  decide (asg.finish ≤ optimal_time)

/-! ## pathing.py: reachability pruning and the two-phase driver -/

/-- The backward-reachability worklist loop of `plan_course_schedule_cp` (a deque of
nodes to process and the processed/relevant accumulator).  The loop is fuel-bounded
for totality; the driver passes more fuel than the loop can consume (each pop either
discards or processes a node, and pushes are bounded by the targets plus one per
edge). -/
def bfs_relevant (g : Graph) : Nat → List String → List String → List String
  | 0, _, relevant => relevant
  | _ + 1, [], relevant => relevant
  | fuel + 1, current :: rest, relevant =>
    if current ∈ relevant ∨ ¬ (g.hasNode current = true) then
      bfs_relevant g fuel rest relevant
    else
      let relevant := relevant ++ [current]
      bfs_relevant g fuel
        (rest ++ (g.predecessors current).filter (fun p => decide (p ∉ relevant)))
        relevant

/-- ortools `cp_model` status codes (integers, as printed by the f-strings). -/
def STATUS_UNKNOWN : Nat := 0
def MODEL_INVALID : Nat := 1
def FEASIBLE : Nat := 2
def INFEASIBLE : Nat := 3
def OPTIMAL : Nat := 4

/-- The outcomes of the two CP-SAT `Solve` calls, as observed by the driver:
the two status codes, the objective value retrieved after phase 1 (`none` embeds a
`RuntimeError` from `ObjectiveValue`, which the code converts to `optimal_time = -1`),
and the variable values `solver.Value(takes[c, s])` read off after phase 2. -/
structure SolverOracle where
  status1 : Nat
  objectiveValue1 : Option Int
  status2 : Nat
  value : String → Nat → Bool

/-- Ascending insertion used to embed Python's `sorted` on strings. -/
def insertSorted (x : String) : List String → List String
  | [] => [x]
  | y :: ys => if x < y then x :: y :: ys else y :: insertSorted x ys

/-- Python `sorted` on a list of strings. -/
def sortStrings (l : List String) : List String := l.foldr insertSorted []

/-- `g.nodes[n]` as a fallible dict access (`KeyError` when absent). -/
def Graph.nodesGet (g : Graph) (n : String) : Except String NodeAttrs :=
  if g.hasNode n then Except.ok (g.attrs n) else Except.error ("KeyError: " ++ n)

/-- The schedule-reconstruction loop after phase 2: scan `takes[c, s]` values,
append each started course to its semester (and to the following semester for
year-long courses), track the realized maximum finishing semester, then keep the
nonempty semesters up to it with each list sorted.  The `(c, s) in takes` guard of
the source always holds here because the scan runs over exactly the keys of
`takes`. -/
def build_schedule_step (g : Graph) (value : String → Nat → Bool) (max_semesters : Nat)
    (s : Nat) (st : (Nat → List String) × Int) (c : String) :
    Except String ((Nat → List String) × Int) :=
  if value c s then
    match g.nodesGet c with
    | Except.error e => Except.error e
    | Except.ok course_info =>
      let c_len_semesters : Nat :=
        if course_info.length.getD halfRat = 1 then 2 else 1
      let disp0 := st.1
      let disp1 := fun k => if k = s then disp0 s ++ [c] else disp0 k
      let disp2 :=
        if c_len_semesters = 2 ∧ s + 1 < max_semesters then
          fun k => if k = s + 1 then disp1 (s + 1) ++ [c] else disp1 k
        else disp1
      let finish_semester : Int := (s : Int) + (c_len_semesters : Int) - 1
      -- Python max(temp_max_s, finish_semester), spelled out so the kernel reduces it
      Except.ok (disp2, if st.2 < finish_semester then finish_semester else st.2)
  else Except.ok st

/-- `temp_max_s if temp_max_s != -1 else 0`, then Python `max(0, ...)`, spelled
with conditionals so the kernel reduces it. -/
def actual_max_finish_sem (temp_max_s : Int) : Int :=
  if (if temp_max_s = -1 then 0 else temp_max_s) < 0 then 0
  else (if temp_max_s = -1 then 0 else temp_max_s)

def build_schedule (g : Graph) (course_nodes : List String) (max_semesters : Nat)
    (value : String → Nat → Bool) : Except String (List (Nat × List String)) :=
  match (List.range max_semesters).foldlM (fun st s =>
      course_nodes.foldlM (build_schedule_step g value max_semesters s) st)
      ((fun _ => [], -1) : (Nat → List String) × Int) with
  | Except.error e => Except.error e
  | Except.ok st =>
    Except.ok ((List.range max_semesters).filterMap (fun (sem : Nat) =>
      if Int.ofNat sem ≤ actual_max_finish_sem st.2 ∧ st.1 sem ≠ [] then
        some (sem, sortStrings (st.1 sem))
      else none))

/-- The backward-reachability pruning step of `plan_course_schedule_cp`: the
worklist traversal from the targets, with the source's fallback
`relevant_nodes.update(t for t in target_courses if t in g)` when the traversal
yields nothing (reachable only with an empty target list). -/
def pruned_relevant (g : Graph) (target_courses : List String) : List String :=
  let fuel := target_courses.length + g.edges.length + g.nodes.length + 1
  let relevant_nodes := bfs_relevant g fuel target_courses []
  if relevant_nodes.isEmpty then target_courses.filter (fun t => g.hasNode t)
  else relevant_nodes

set_option linter.unusedVariables false in
/-- The body of `plan_course_schedule_cp` (the contents of its `try` block).  The
two `solver.Solve` calls are replaced by the recorded `oracle` outcomes; every other
step mirrors the source control flow.  The unreachable trailing
`return status_str, None` of the source (phase-2 status already dispatched above it)
is omitted. -/
def plan_course_schedule_cp_body (g : Graph) (target_courses : List String)
    (max_courses_per_semester max_semesters : Nat) (oracle : SolverOracle) :
    Except String (String × Option (List (Nat × List String))) :=
  match target_courses.find? (fun tc => !g.hasNode tc) with
  | some _ => Except.ok ("Error: Target not in graph", none)
  | none =>
    let relevant_nodes := pruned_relevant g target_courses
    if relevant_nodes.isEmpty then Except.ok ("Error: No relevant nodes", none)
    else
      let course_nodes := courseNodesOf g relevant_nodes
      if oracle.status1 = OPTIMAL ∨ oracle.status1 = FEASIBLE then
        let optimal_time : Int := oracle.objectiveValue1.getD (-1)
        if optimal_time < 0 then Except.ok ("Error: Phase 1 Failed", none)
        else
          if oracle.status2 = OPTIMAL then
            match build_schedule g course_nodes max_semesters oracle.value with
            | Except.ok sched => Except.ok ("Optimal", some sched)
            | Except.error e => Except.error e
          else if oracle.status2 = FEASIBLE then
            match build_schedule g course_nodes max_semesters oracle.value with
            | Except.ok sched => Except.ok ("Feasible", some sched)
            | Except.error e => Except.error e
          else if oracle.status2 = INFEASIBLE then
            Except.ok ("Error - Infeasible Phase 2", none)
          else
            Except.ok ("Unknown or Error (" ++ toString oracle.status2 ++ ")", none)
      else if oracle.status1 = INFEASIBLE then Except.ok ("Infeasible", none)
      else Except.ok ("Unknown or Error (" ++ toString oracle.status1 ++ ")", none)

/-- From `pathing.py`: `plan_course_schedule_cp`, whose whole body runs inside
`try: ... except Exception: return "Error", None`. -/
def plan_course_schedule_cp (g : Graph) (target_courses : List String)
    (max_courses_per_semester : Nat := 5) (max_semesters : Nat := 8)
    (oracle : SolverOracle) : String × Option (List (Nat × List String)) :=
  match plan_course_schedule_cp_body g target_courses max_courses_per_semester
    max_semesters oracle with
  | Except.ok r => r
  | Except.error _ => ("Error", none)

/-- The full pipeline of `app.py`: build the graph from the course metadata, then
plan (the uuid entropy `stream` and the solver outcomes `oracle` made explicit). -/
def run_pipeline (course_list : List (String × Course)) (stream : Nat → String)
    (target_courses : List String) (max_courses_per_semester max_semesters : Nat)
    (oracle : SolverOracle) : String × Option (List (Nat × List String)) :=
  plan_course_schedule_cp (create_graph_from_courses course_list stream)
    target_courses max_courses_per_semester max_semesters oracle

/-! ## Derived notions used to state the claims -/

/-- A gate (logic) node of the graph, in the sense `pathing.py` classifies relevant
nodes: present with `logic` attribute defaulting to false. -/
def isGateNode (g : Graph) (n : String) : Bool :=
  g.hasNode n && (g.attrs n).logic.getD false

/-- The condition under which the availability block of the encoder emits
`model.Add(takes[c, s] == 0)` (either of its two `if`s fires). -/
def availForcesFalse (course_info : NodeAttrs) (max_semesters s : Nat) : Bool :=
  (!is_course_available course_info s) ||
  (decide (course_length_semesters course_info = 2) && decide (s = max_semesters - 1))

/-- The spec's enumerated status set (§6), fixed strings verbatim. -/
def specStatuses : List String :=
  ["Optimal", "Feasible", "Infeasible", "Error: Target not in graph",
   "Error: No relevant nodes", "Error: Phase 1 Failed", "Error: Infeasible Phase 2"]

/-- Membership in the spec's status set: one of the fixed strings, or the
parameterized `Unknown/Error(<code>)` form, character for character. -/
def specStatusOK (st : String) : Prop :=
  st ∈ specStatuses ∨ ∃ code : String, st = "Unknown/Error(" ++ code ++ ")"

/-- The status strings the implementation actually returns (plus the
parameterized `Unknown or Error (<code>)` form). -/
def plannerStatuses : List String :=
  ["Optimal", "Feasible", "Infeasible", "Error: Target not in graph",
   "Error: No relevant nodes", "Error: Phase 1 Failed", "Error - Infeasible Phase 2",
   "Error"]

/-- Invariant tying the builder state to the identifier stream: identifiers not yet
drawn are absent from the graph; every gate node is a previously drawn identifier
and has exactly one outgoing edge; all edge endpoints are nodes. -/
structure BuildInv (stream : Nat → String) (g : Graph) (c : Nat) : Prop where
  fresh : ∀ k, c ≤ k → g.hasNode (stream k) = false
  gates : ∀ n, isGateNode g n = true → (∃ k, k < c ∧ n = stream k) ∧ outDeg g n = 1
  ends : ∀ e ∈ g.edges, g.hasNode e.1 = true ∧ g.hasNode e.2 = true

/-- Postcondition of one builder step (used for `parse_requisite_list` and
`parse_children`): the invariant is preserved, the counter only grows, and nodes
are never removed. -/
def ParsePost (stream : Nat → String) (g : Graph) (c : Nat) (res : Graph × Nat) : Prop :=
  BuildInv stream res.1 res.2 ∧ c ≤ res.2 ∧
    ∀ n, g.hasNode n = true → res.1.hasNode n = true

/-! ## Concrete instances used by counterexamples and witnesses -/

/-- A short course offered in both term kinds. -/
def courseAttrsFW : NodeAttrs :=
  { logic := some false, sessions := some [Semester.FALL, Semester.WINTER],
    length := some halfRat }

/-- An `all` gate node's attributes, as `parse_requisite_list` creates them. -/
def gateAllAttrs : NodeAttrs :=
  { logic := some true, type := some (ReqElem.str "all"), color := some (255, 255, 255) }

/-- Pruned graph for the `AllOf` activation claims: courses `A`, `C` feed an `all`
gate `G` consumed by course `B`. -/
def gC1 : Graph :=
  { nodes := [("A", courseAttrsFW), ("C", courseAttrsFW), ("G", gateAllAttrs),
              ("B", courseAttrsFW)]
    edges := [("A", "G"), ("C", "G"), ("G", "B")] }

def relC1 : List String := ["A", "C", "G", "B"]

/-- Assignment for `gC1`: `A`, `C` in semester 0, `B` in semester 1, the gate active
at semester 1 only (in particular inactive at semester 2 although both prerequisites
are done by then). -/
def asgC1 : Assignment :=
  { takes := fun c s =>
      (decide (c = "A") && decide (s = 0)) || (decide (c = "C") && decide (s = 0)) ||
      (decide (c = "B") && decide (s = 1))
    active := fun n s => decide (n = "G") && decide (s = 1)
    finish := 1 }

/-- A single short fall-only course. -/
def attrsFallOnly : NodeAttrs :=
  { logic := some false, sessions := some [Semester.FALL], length := some halfRat }

def gA : Graph := { nodes := [("A", attrsFallOnly)], edges := [] }

def asgA : Assignment :=
  { takes := fun c s => decide (c = "A") && decide (s = 0)
    active := fun _ _ => false
    finish := 0 }

/-- Prerequisite edge between two short courses: `A` before `B`. -/
def gC6 : Graph :=
  { nodes := [("A", courseAttrsFW), ("B", courseAttrsFW)], edges := [("A", "B")] }

def asgC6 : Assignment :=
  { takes := fun c s =>
      (decide (c = "A") && decide (s = 0)) || (decide (c = "B") && decide (s = 1))
    active := fun _ _ => false
    finish := 1 }

/-- A deterministic stand-in for the uuid stream: `"#"`, `"##"`, ... -/
def demoStream : Nat → String := fun n => String.mk (List.replicate (n + 1) '#')

/-- A second uuid stream, as another run of `uuid.uuid4()` would draw:
`"%"`, `"%%"`, ... -/
def demoStream2 : Nat → String := fun n => String.mk (List.replicate (n + 1) '%')

/-- One course whose `all` requisite list names two identifiers absent from the
course dict: the builder creates the gate but drops both children. -/
def demoCourses : List (String × Course) :=
  [("CSC111",
    { title := "t", semesters := [Semester.FALL],
      prereq_list := reqList [ReqElem.str "all", ReqElem.str "AAA100",
                              ReqElem.str "BBB100"] })]

/-- The graph the builder produces from `demoCourses` under `demoStream`. -/
def gDemo : Graph := create_graph_from_courses demoCourses demoStream

/-- Solver outcomes whose phase 2 reports INFEASIBLE after a successful phase 1. -/
def oracleP2Infeasible : SolverOracle :=
  { status1 := OPTIMAL, objectiveValue1 := some 0, status2 := INFEASIBLE,
    value := fun _ _ => false }

/-- Solver outcomes for a successful one-course plan. -/
def oracleDemoOK : SolverOracle :=
  { status1 := OPTIMAL, objectiveValue1 := some 0, status2 := OPTIMAL,
    value := fun c s => decide (c = "CSC111") && decide (s = 0) }

/-- Metadata whose only offering marker is the combined Fall-Winter session. -/
def attrsFWOnly : NodeAttrs :=
  { logic := some false, sessions := some [Semester.FALL_WINTER], length := some halfRat }

/-! ## Theorems -/

/-- `halfRat` is the rational one half. -/
theorem halfRat_eq : halfRat = 1 / 2 := by
  have h1 : (1 / 2 : ℚ).num = 1 := by norm_num
  have h2 : (1 / 2 : ℚ).den = 2 := by norm_num
  apply Rat.ext <;> simp [halfRat, h1, h2]

theorem halfRat_ne_one : halfRat ≠ 1 := by decide

/-- Decomposition of the satisfaction predicate into its five constraint groups. -/
theorem satisfiesModel_parts {g : Graph} {relevant target_courses : List String}
    {maxS cap : Nat} {asg : Assignment}
    (h : satisfiesModel g relevant target_courses maxS cap asg = true) :
    (∀ c ∈ courseNodesOf g relevant, cardOK asg maxS target_courses c = true) ∧
    (∀ c ∈ courseNodesOf g relevant, availOK g asg maxS c = true) ∧
    (∀ a b, (a, b) ∈ relevantEdges g relevant → edgeOK g relevant asg maxS a b = true) ∧
    (∀ s, s < maxS → capOK g relevant asg cap s = true) ∧
    finishOK g relevant asg maxS = true := by
  simp only [satisfiesModel, Bool.and_eq_true, List.all_eq_true, List.mem_range,
    Prod.forall] at h
  tauto

/-- Every relevant edge's constraints hold in a satisfying assignment. -/
theorem edgeOK_of_satisfies {g : Graph} {relevant target_courses : List String}
    {maxS cap : Nat} {asg : Assignment} {u v : String}
    (h : satisfiesModel g relevant target_courses maxS cap asg = true)
    (he : (u, v) ∈ g.edges) (hu : u ∈ relevant) (hv : v ∈ relevant) :
    edgeOK g relevant asg maxS u v = true := by
  have h3 := (satisfiesModel_parts h).2.2.1
  have hmem : (u, v) ∈ relevantEdges g relevant := by
    simp [relevantEdges, List.mem_filter, he, hu, hv]
  exact h3 u v hmem

/-- An edge of the graph makes its source a predecessor of its target. -/
theorem mem_relevantPreds {g : Graph} {relevant : List String} {u v : String}
    (he : (u, v) ∈ g.edges) (hu : u ∈ relevant) :
    u ∈ relevantPreds g relevant v := by
  refine List.mem_filter.mpr ⟨?_, by simpa using hu⟩
  unfold Graph.predecessors
  exact List.mem_map.mpr ⟨(u, v), List.mem_filter.mpr ⟨he, by simp⟩, rfl⟩

/-- C10: a short item whose sessions list only the combined Fall-Winter marker is
never available: `is_course_available` tests membership of `FALL` (in fall terms)
or `WINTER` (in winter terms) individually and the combined marker matches
neither, so the item can never start. -/
theorem c10_fall_winter_unavailable :
    ∀ (course_info : NodeAttrs) (s : Nat),
    course_info.length = some halfRat →
    course_info.sessions = some [Semester.FALL_WINTER] →
    is_course_available course_info s = false := by
  intro info s hlen hsess
  unfold is_course_available
  rcases Nat.even_or_odd s with he | ho
  · have h0 : s % 2 = 0 := Nat.even_iff.mp he
    simp [hlen, hsess, get_semester_type, h0]
  · have h1 : s % 2 = 1 := Nat.odd_iff.mp ho
    simp [hlen, hsess, get_semester_type, h1]

/-- Witness for C10 at a concrete attribute record and both term kinds. -/
theorem c10_fall_winter_unavailable_witness :
    is_course_available attrsFWOnly 0 = false ∧ is_course_available attrsFWOnly 1 = false :=
  ⟨c10_fall_winter_unavailable attrsFWOnly 0 rfl rfl,
   c10_fall_winter_unavailable attrsFWOnly 1 rfl rfl⟩

/-- C3: any assignment satisfying the phase-1 constraint set also satisfies the
phase-2 constraint set obtained by freezing the achieved objective
(`max_finish_semester <= optimal_time` with `optimal_time` the assignment's own
finish value), so phase 2 is satisfiable whenever phase 1 was, and — the solver
reporting INFEASIBLE exactly on unsatisfiable models — the
`Error - Infeasible Phase 2` branch is unreachable after a successful phase 1. -/
theorem c3_phase2_always_satisfiable :
    ∀ (g : Graph) (relevant target_courses : List String) (maxS cap : Nat)
      (asg : Assignment),
    satisfiesModel g relevant target_courses maxS cap asg = true →
    satisfiesPhase2 g relevant target_courses maxS cap asg.finish asg = true := by
  intro g relevant tcs maxS cap asg h
  simp [satisfiesPhase2, h]

/-- Witness for C3: the one-course instance satisfies phase 1, hence phase 2. -/
theorem c3_phase2_always_satisfiable_witness :
    satisfiesPhase2 gA ["A"] ["A"] 2 1 asgA.finish asgA = true :=
  c3_phase2_always_satisfiable gA ["A"] ["A"] 2 1 asgA (by decide)

/-- C1 counterexample: a satisfying assignment of the emitted constraints in which
every child of the `all` gate `G` is done by semester 2 while the gate's activation
variable is false there — the encoder never emits the direction
"all children done implies active", so `active` does not mirror the conjunction as
a biconditional. -/
theorem c1_allof_counterexample :
    satisfiesModel gC1 relC1 ["B"] 3 2 asgC1 = true ∧
    relevantPreds gC1 relC1 "G" ≠ [] ∧
    ((relevantPreds gC1 relC1 "G").all (fun p => predDoneVal gC1 asgC1 p 2)) = true ∧
    asgC1.active "G" 2 = false := by decide

/-- C1 (amended): for an `all` gate the emitted constraints enforce only the
forward direction — in every satisfying assignment, if the gate is active at
semester `s` then every relevant child's done-by-`s` indicator is true; the
converse direction is not enforced (see the counterexample). -/
theorem c1_allof_activation_amended :
    ∀ (g : Graph) (relevant target_courses : List String) (maxS cap : Nat)
      (asg : Assignment) (u v : String) (s : Nat),
    satisfiesModel g relevant target_courses maxS cap asg = true →
    (u, v) ∈ g.edges → u ∈ relevant → v ∈ relevant →
    (g.attrs v).logic.getD false = true →
    (g.attrs v).type = some (ReqElem.str "all") →
    s ≤ maxS →
    asg.active v s = true →
    (relevantPreds g relevant v).all (fun p => predDoneVal g asg p s) = true := by
  intro g relevant tcs maxS cap asg u v s h he hu hv hlogic htype hs hactive
  have hedge := edgeOK_of_satisfies h he hu hv
  unfold edgeOK at hedge
  rw [hlogic] at hedge
  simp only [Bool.not_true, Bool.false_eq_true, if_false] at hedge
  have hgate := List.all_eq_true.mp hedge s (by simp; omega)
  have hne : relevantPreds g relevant v ≠ [] :=
    List.ne_nil_of_mem (mem_relevantPreds he hu)
  have hempty : (relevantPreds g relevant v).isEmpty = false := by
    simpa [List.isEmpty_iff] using hne
  simp only [gateOK, hempty, htype, hactive, Bool.not_true, Bool.false_eq_true,
    if_false, Bool.false_or, Bool.and_eq_true] at hgate
  simpa [List.all_map, Function.comp] using hgate.1

/-- Witness for the amended C1 at semester 1 of the concrete instance, where the
gate is active. -/
theorem c1_allof_activation_amended_witness :
    ((relevantPreds gC1 relC1 "G").all (fun p => predDoneVal gC1 asgC1 p 1)) = true :=
  c1_allof_activation_amended gC1 relC1 ["B"] 3 2 asgC1 "A" "G" 1
    (by decide) (by decide) (by decide) (by decide) (by decide) (by decide)
    (by decide) (by decide)

/-- C4: the availability block forces `takes[c, s]` to false in every satisfying
assignment whenever `availForcesFalse` fires, and `availForcesFalse` fires exactly
as the availability rule states: for a short item (length 0.5) exactly when the
term's kind is not among the item's session kinds, and for a long item (length 1.0)
exactly when the term's kind is not the primary (Fall) kind or the term is the
final one. -/
theorem c4_availability_forcing :
    ∀ (g : Graph) (relevant target_courses : List String) (maxS cap : Nat)
      (asg : Assignment) (c : String) (s : Nat),
    satisfiesModel g relevant target_courses maxS cap asg = true →
    c ∈ courseNodesOf g relevant → s < maxS →
    ((availForcesFalse (g.attrs c) maxS s = true → asg.takes c s = false) ∧
     ((g.attrs c).length = some halfRat →
        (availForcesFalse (g.attrs c) maxS s = true ↔
          get_semester_type s ∉ (g.attrs c).sessions.getD [])) ∧
     ((g.attrs c).length = some 1 →
        (availForcesFalse (g.attrs c) maxS s = true ↔
          (get_semester_type s ≠ Semester.FALL ∨ s = maxS - 1)))) := by
  intro g relevant tcs maxS cap asg c s h hc hs
  refine ⟨?_, ?_, ?_⟩
  · intro hforce
    have havail := (satisfiesModel_parts h).2.1 c hc
    have hsem := List.all_eq_true.mp havail s (List.mem_range.mpr hs)
    simp only [Bool.and_eq_true] at hsem
    rcases Bool.or_eq_true_iff.mp hforce with hna | hlast
    · have := hsem.1
      rw [if_pos hna] at this
      simpa using this
    · have := hsem.2
      simp only [Bool.and_eq_true, decide_eq_true_eq] at hlast
      rw [if_pos (by simp [hlast.1, hlast.2])] at this
      simpa using this
  · intro hlen
    have hgd : (g.attrs c).length.getD halfRat = halfRat := by rw [hlen]; rfl
    have hne2 : course_length_semesters (g.attrs c) = 1 := by
      simp [course_length_semesters, hgd, halfRat_ne_one]
    rcases Nat.even_or_odd s with he | ho
    · have h0 : s % 2 = 0 := Nat.even_iff.mp he
      simp [availForcesFalse, is_course_available, hgd, hne2, get_semester_type, h0]
    · have h1 : s % 2 = 1 := Nat.odd_iff.mp ho
      simp [availForcesFalse, is_course_available, hgd, hne2, get_semester_type, h1]
  · intro hlen
    have hgd : (g.attrs c).length.getD halfRat = (1 : ℚ) := by rw [hlen]; rfl
    have hne2 : course_length_semesters (g.attrs c) = 2 := by
      simp [course_length_semesters, hgd]
    rcases Nat.even_or_odd s with he | ho
    · have h0 : s % 2 = 0 := Nat.even_iff.mp he
      simp [availForcesFalse, is_course_available, hgd, hne2, hlen,
        Ne.symm halfRat_ne_one, get_semester_type, h0]
    · have h1 : s % 2 = 1 := Nat.odd_iff.mp ho
      simp [availForcesFalse, is_course_available, hgd, hne2, hlen,
        Ne.symm halfRat_ne_one, get_semester_type, h1]

/-- Witness for C4: the fall-only course is forced out of semester 1 (a winter
term) in the satisfying single-course instance. -/
theorem c4_availability_forcing_witness : asgA.takes "A" 1 = false :=
  (c4_availability_forcing gA ["A"] ["A"] 2 1 asgA "A" 1
    (by decide) (by decide) (by decide)).1 (by decide)

/-- C6: along a course-to-course prerequisite edge `(u, v)`, in every satisfying
assignment, if `v` starts at `s_v` then `u` starts at some `s_u` with
`s_u + duration(u) <= s_v`; and if no semester index at all satisfies
`s_u + duration(u) <= s_v`, then `takes[v, s_v]` is forced false. -/
theorem c6_prereq_timing :
    ∀ (g : Graph) (relevant target_courses : List String) (maxS cap : Nat)
      (asg : Assignment) (u v : String) (s_v : Nat),
    satisfiesModel g relevant target_courses maxS cap asg = true →
    (u, v) ∈ g.edges → u ∈ relevant → v ∈ relevant →
    (g.attrs u).logic.getD false = false →
    (g.attrs v).logic.getD false = false →
    s_v < maxS →
    ((asg.takes v s_v = true →
        ∃ s_u, s_u + course_length_semesters (g.attrs u) ≤ s_v ∧
          asg.takes u s_u = true) ∧
     ((∀ s_u : Nat, ¬ s_u + course_length_semesters (g.attrs u) ≤ s_v) →
        asg.takes v s_v = false)) := by
  intro g relevant tcs maxS cap asg u v s_v h he hu hv hul hvl hsv
  have hedge := edgeOK_of_satisfies h he hu hv
  simp only [edgeOK, hul, hvl, Bool.not_false, if_true] at hedge
  have hone := List.all_eq_true.mp hedge s_v (List.mem_range.mpr hsv)
  simp only at hone
  constructor
  · intro htakes
    cases hst : ((List.range s_v).filter
        (fun s_u => decide (s_u + course_length_semesters (g.attrs u) ≤ s_v))).isEmpty
    · rw [hst] at hone
      simp only [Bool.false_eq_true, if_false, htakes, Bool.not_true, Bool.false_or]
        at hone
      obtain ⟨s_u, hmem, hval⟩ := List.any_eq_true.mp hone
      obtain ⟨_, hle⟩ := List.mem_filter.mp hmem
      exact ⟨s_u, by simpa using hle, hval⟩
    · rw [hst] at hone
      simp only [if_true, htakes] at hone
      cases hone
  · intro hno
    have hst : ((List.range s_v).filter
        (fun s_u => decide (s_u + course_length_semesters (g.attrs u) ≤ s_v))).isEmpty
        = true := by
      rw [List.isEmpty_iff]
      rw [List.eq_nil_iff_forall_not_mem]
      intro s_u hmem
      obtain ⟨_, hle⟩ := List.mem_filter.mp hmem
      exact hno s_u (by simpa using hle)
    rw [hst] at hone
    simpa using hone

/-- Witness for C6: in the concrete two-course instance, `B` cannot start at
semester 0 because no semester index can fit the prerequisite `A` before it. -/
theorem c6_prereq_timing_witness : asgC6.takes "B" 0 = false := by
  have hlen : course_length_semesters (gC6.attrs "A") = 1 := by decide
  refine (c6_prereq_timing gC6 ["A", "B"] ["B"] 2 1 asgC6 "A" "B" 0
    (by decide) (by decide) (by decide) (by decide) (by decide) (by decide)
    (by decide)).2 ?_
  intro s_u hcon
  rw [hlen] at hcon
  omega

/-- C7: in every satisfying assignment and at every semester `s`, the number of
relevant courses started at `s` plus the number of year-long courses started at
`s - 1` (occupying `s` as their second semester) is at most the per-semester
capacity. -/
theorem c7_capacity :
    ∀ (g : Graph) (relevant target_courses : List String) (maxS cap : Nat)
      (asg : Assignment) (s : Nat),
    satisfiesModel g relevant target_courses maxS cap asg = true → s < maxS →
    ((courseNodesOf g relevant).filter (fun c => asg.takes c s)).length +
      (if 0 < s then
        ((courseNodesOf g relevant).filter (fun c =>
          decide ((g.attrs c).length.getD halfRat = 1) && asg.takes c (s - 1))).length
       else 0) ≤ cap := by
  intro g relevant tcs maxS cap asg s h hs
  have hcap := (satisfiesModel_parts h).2.2.2.1 s hs
  simpa [capOK] using hcap

/-- Witness for C7 at semester 0 of the two-course instance (capacity 1). -/
theorem c7_capacity_witness :
    ((courseNodesOf gC6 ["A", "B"]).filter (fun c => asgC6.takes c 0)).length +
      (if 0 < 0 then
        ((courseNodesOf gC6 ["A", "B"]).filter (fun c =>
          decide ((gC6.attrs c).length.getD halfRat = 1) && asgC6.takes c (0 - 1))).length
       else 0) ≤ 1 :=
  c7_capacity gC6 ["A", "B"] ["B"] 2 1 asgC6 0 (by decide) (by decide)

/-- Exhaustive case analysis of the planner's return value: one of the fixed
status strings with no schedule, a parameterized unknown/error status with no
schedule, a reconstruction from `build_schedule` under `Optimal`/`Feasible`, or
the exception fallback `("Error", none)`. -/
theorem plan_course_schedule_cp_cases (g : Graph) (t : List String) (cap maxS : Nat)
    (o : SolverOracle) :
    plan_course_schedule_cp g t cap maxS o = ("Error: Target not in graph", none) ∨
    plan_course_schedule_cp g t cap maxS o = ("Error: No relevant nodes", none) ∨
    plan_course_schedule_cp g t cap maxS o = ("Infeasible", none) ∨
    plan_course_schedule_cp g t cap maxS o = ("Error: Phase 1 Failed", none) ∨
    plan_course_schedule_cp g t cap maxS o = ("Error - Infeasible Phase 2", none) ∨
    (∃ code : Nat, plan_course_schedule_cp g t cap maxS o =
        ("Unknown or Error (" ++ toString code ++ ")", none)) ∨
    (∃ sched, plan_course_schedule_cp g t cap maxS o = ("Optimal", some sched) ∧
        build_schedule g (courseNodesOf g (pruned_relevant g t)) maxS o.value =
          Except.ok sched) ∨
    (∃ sched, plan_course_schedule_cp g t cap maxS o = ("Feasible", some sched) ∧
        build_schedule g (courseNodesOf g (pruned_relevant g t)) maxS o.value =
          Except.ok sched) ∨
    plan_course_schedule_cp g t cap maxS o = ("Error", none) := by
  unfold plan_course_schedule_cp plan_course_schedule_cp_body
  cases hf : t.find? (fun tc => !g.hasNode tc) with
  | some x => simp
  | none =>
    split
    case _ r heq =>
      try simp only [] at heq
      repeat' split at heq
      all_goals
        first
        | exact Except.noConfusion heq
        | (injection heq with h
           subst h
           first
           | tauto
           | exact Or.inr (Or.inr (Or.inr (Or.inr (Or.inr (Or.inl ⟨_, rfl⟩)))))
           | exact Or.inr (Or.inr (Or.inr (Or.inr (Or.inr (Or.inr
               (Or.inl ⟨_, rfl, by assumption⟩))))))
           | exact Or.inr (Or.inr (Or.inr (Or.inr (Or.inr (Or.inr (Or.inr
               (Or.inl ⟨_, rfl, by assumption⟩))))))))
    case _ e heq => tauto

/-- C9: the planner never propagates an exception — it is a total function whose
value is the body's result when the body succeeds, and the caught-exception
fallback `("Error", None)` when the body raises. -/
theorem c9_no_exception_escape :
    ∀ (g : Graph) (target_courses : List String) (cap maxS : Nat) (o : SolverOracle),
    (∃ r, plan_course_schedule_cp_body g target_courses cap maxS o = Except.ok r ∧
        plan_course_schedule_cp g target_courses cap maxS o = r) ∨
    (∃ e, plan_course_schedule_cp_body g target_courses cap maxS o = Except.error e ∧
        plan_course_schedule_cp g target_courses cap maxS o = ("Error", none)) := by
  intro g t cap maxS o
  cases hb : plan_course_schedule_cp_body g t cap maxS o with
  | ok r => exact Or.inl ⟨r, rfl, by simp [plan_course_schedule_cp, hb]⟩
  | error e => exact Or.inr ⟨e, rfl, by simp [plan_course_schedule_cp, hb]⟩

/-- C5 counterexample: with a successful phase 1 and an INFEASIBLE phase 2 the
planner returns the status string `"Error - Infeasible Phase 2"`, which is not —
character for character — in the spec's enumerated status set (the spec writes
`Error: Infeasible Phase 2` and `Unknown/Error(<code>)`; the code writes
`Error - Infeasible Phase 2` and `Unknown or Error (<code>)`, and can also
return bare `Error`). -/
theorem c5_status_strings_counterexample :
    plan_course_schedule_cp gDemo ["CSC111"] 5 8 oracleP2Infeasible =
      ("Error - Infeasible Phase 2", none) ∧
    ¬ specStatusOK "Error - Infeasible Phase 2" := by
  constructor
  · decide
  · intro hspec
    rcases hspec with hmem | ⟨code, hcode⟩
    · revert hmem; decide
    · have hdata := congrArg String.data hcode
      have happ : ∀ a b : String, (a ++ b).data = a.data ++ b.data := fun _ _ => rfl
      rw [happ, happ] at hdata
      have hE : ("Error - Infeasible Phase 2").data.head? = some 'E' := rfl
      rw [hdata] at hE
      have hU : (("Unknown/Error(").data ++ code.data ++ (")").data).head? = some 'U' :=
        rfl
      rw [hU] at hE
      simp at hE

/-- C5 (amended): every status the planner returns is one of
Optimal / Feasible / Infeasible / `Error: Target not in graph` /
`Error: No relevant nodes` / `Error: Phase 1 Failed` /
`Error - Infeasible Phase 2` / `Error`, or the parameterized
`Unknown or Error (<code>)`; and the schedule component is `none` except under
`Optimal` or `Feasible`. -/
theorem c5_status_strings_amended :
    ∀ (g : Graph) (t : List String) (cap maxS : Nat) (o : SolverOracle),
    ((plan_course_schedule_cp g t cap maxS o).1 ∈ plannerStatuses ∨
      ∃ code : Nat, (plan_course_schedule_cp g t cap maxS o).1 =
        "Unknown or Error (" ++ toString code ++ ")") ∧
    ((plan_course_schedule_cp g t cap maxS o).2 ≠ none →
      (plan_course_schedule_cp g t cap maxS o).1 = "Optimal" ∨
      (plan_course_schedule_cp g t cap maxS o).1 = "Feasible") := by
  intro g t cap maxS o
  rcases plan_course_schedule_cp_cases g t cap maxS o with
    h | h | h | h | h | hU | hO | hF | h
  · rw [h]; exact ⟨Or.inl (by decide), by simp⟩
  · rw [h]; exact ⟨Or.inl (by decide), by simp⟩
  · rw [h]; exact ⟨Or.inl (by decide), by simp⟩
  · rw [h]; exact ⟨Or.inl (by decide), by simp⟩
  · rw [h]; exact ⟨Or.inl (by decide), by simp⟩
  · obtain ⟨code, h⟩ := hU
    rw [h]; exact ⟨Or.inr ⟨code, rfl⟩, by simp⟩
  · obtain ⟨sched, h, _⟩ := hO
    rw [h]
    exact ⟨Or.inl (show "Optimal" ∈ plannerStatuses by decide), fun _ => Or.inl rfl⟩
  · obtain ⟨sched, h, _⟩ := hF
    rw [h]
    exact ⟨Or.inl (show "Feasible" ∈ plannerStatuses by decide), fun _ => Or.inr rfl⟩
  · rw [h]; exact ⟨Or.inl (by decide), by simp⟩

/-- Witness for the amended C5: on a concrete successful run the schedule is
present and the status is Optimal or Feasible. -/
theorem c5_status_strings_amended_witness :
    plan_course_schedule_cp gDemo ["CSC111"] 5 8 oracleDemoOK =
      ("Optimal", some [(0, ["CSC111"])]) ∧
    ((plan_course_schedule_cp gDemo ["CSC111"] 5 8 oracleDemoOK).1 = "Optimal" ∨
      (plan_course_schedule_cp gDemo ["CSC111"] 5 8 oracleDemoOK).1 = "Feasible") :=
  ⟨by decide,
   (c5_status_strings_amended gDemo ["CSC111"] 5 8 oracleDemoOK).2 (by decide)⟩

theorem mem_insertSorted :
    ∀ (x : String) (l : List String) (a : String),
    a ∈ insertSorted x l → a = x ∨ a ∈ l := by
  intro x l
  induction l with
  | nil => intro a h; simpa [insertSorted] using h
  | cons y ys ih =>
    intro a h
    unfold insertSorted at h
    split at h
    · rcases List.mem_cons.mp h with h1 | h2
      · exact Or.inl h1
      · exact Or.inr h2
    · rcases List.mem_cons.mp h with h1 | h2
      · exact Or.inr (List.mem_cons.mpr (Or.inl h1))
      · rcases ih a h2 with h3 | h4
        · exact Or.inl h3
        · exact Or.inr (List.mem_cons.mpr (Or.inr h4))

theorem mem_sortStrings :
    ∀ (l : List String) (a : String), a ∈ sortStrings l → a ∈ l := by
  intro l
  induction l with
  | nil => intro a h; exact h
  | cons x xs ih =>
    intro a h
    have hx : sortStrings (x :: xs) = insertSorted x (sortStrings xs) := rfl
    rw [hx] at h
    rcases mem_insertSorted x (sortStrings xs) a h with h1 | h2
    · exact h1 ▸ List.mem_cons_self x xs
    · exact List.mem_cons_of_mem x (ih a h2)

/-- Invariant preservation through a fallible fold. -/
theorem except_foldlM_inv {α β ε : Type} {P : β → Prop} :
    ∀ (l : List α) (f : β → α → Except ε β) (init : β), P init →
    (∀ b a, a ∈ l → P b → ∀ b2, f b a = Except.ok b2 → P b2) →
    ∀ r, l.foldlM f init = Except.ok r → P r := by
  intro l
  induction l with
  | nil =>
    intro f init hinit _ r hr
    simp only [List.foldlM_nil] at hr
    cases hr
    exact hinit
  | cons a as ih =>
    intro f init hinit hstep r hr
    rw [List.foldlM_cons] at hr
    cases hfa : f init a with
    | error e => rw [hfa] at hr; exact Except.noConfusion hr
    | ok b2 =>
      rw [hfa] at hr
      have hr2 : as.foldlM f b2 = Except.ok r := hr
      exact ih f b2 (hstep init a (List.mem_cons_self a as) hinit b2 hfa)
        (fun b x hx hP b3 hfb => hstep b x (List.mem_cons_of_mem a hx) hP b3 hfb) r hr2

/-- Appending one course drawn from the course list to one semester keeps every
semester's members inside the course list. -/
theorem memUpd (cn : List String) (d : Nat → List String) (j : Nat) (c : String)
    (hd : ∀ k x, x ∈ d k → x ∈ cn) (hc : c ∈ cn) :
    ∀ k x, x ∈ (if k = j then d j ++ [c] else d k) → x ∈ cn := by
  intro k x hx
  by_cases hk : k = j
  · rw [if_pos hk] at hx
    rcases List.mem_append.mp hx with h1 | h2
    · exact hd j x h1
    · exact (List.mem_singleton.mp h2) ▸ hc
  · rw [if_neg hk] at hx
    exact hd k x hx

/-- One reconstruction step only ever appends the scanned course to semester
lists. -/
theorem build_schedule_step_preserves
    (g : Graph) (value : String → Nat → Bool) (maxS s : Nat)
    (course_nodes : List String) (st : (Nat → List String) × Int) (c : String)
    (hc : c ∈ course_nodes)
    (hst : ∀ k x, x ∈ st.1 k → x ∈ course_nodes)
    (st2 : (Nat → List String) × Int)
    (hstep : build_schedule_step g value maxS s st c = Except.ok st2) :
    ∀ k x, x ∈ st2.1 k → x ∈ course_nodes := by
  unfold build_schedule_step at hstep
  split at hstep
  · cases hget : g.nodesGet c with
    | error e => rw [hget] at hstep; cases hstep
    | ok info =>
      rw [hget] at hstep
      injection hstep with h2
      subst h2
      have hd1 : ∀ k2 x2, x2 ∈ (if k2 = s then st.1 s ++ [c] else st.1 k2) →
          x2 ∈ course_nodes := memUpd course_nodes st.1 s c hst hc
      intro k x hx
      by_cases hP : (if info.length.getD halfRat = 1 then 2 else 1) = 2 ∧
          s + 1 < maxS
      · rw [if_pos hP] at hx
        exact memUpd course_nodes
          (fun k2 => if k2 = s then st.1 s ++ [c] else st.1 k2) (s + 1) c hd1 hc
          k x hx
      · rw [if_neg hP] at hx
        exact hd1 k x hx
  · injection hstep with h2
    subst h2
    exact hst

theorem ite_some_eq {α : Type} {c : Prop} [Decidable c] {a b : α}
    (h : (if c then some a else none) = some b) : a = b := by
  by_cases hc : c
  · rw [if_pos hc] at h; exact Option.some.inj h
  · rw [if_neg hc] at h; cases h

/-- Every identifier in a reconstructed schedule comes from the scanned course
list. -/
theorem build_schedule_mem :
    ∀ (g : Graph) (course_nodes : List String) (maxS : Nat)
      (value : String → Nat → Bool) (sched : List (Nat × List String)),
    build_schedule g course_nodes maxS value = Except.ok sched →
    ∀ sem items, (sem, items) ∈ sched → ∀ cid ∈ items, cid ∈ course_nodes := by
  intro g cn maxS value sched hb sem items hmem cid hcid
  unfold build_schedule at hb
  cases hout : (List.range maxS).foldlM
      (fun st s => cn.foldlM (build_schedule_step g value maxS s) st)
      ((fun _ => [], -1) : (Nat → List String) × Int) with
  | error e => rw [hout] at hb; exact Except.noConfusion hb
  | ok st =>
    rw [hout] at hb
    have hsched := Except.ok.inj hb
    subst hsched
    obtain ⟨sem2, _, hsome⟩ := List.mem_filterMap.mp hmem
    have hinv : ∀ k x, x ∈ st.1 k → x ∈ cn := by
      refine except_foldlM_inv (P := fun st => ∀ k x, x ∈ st.1 k → x ∈ cn)
        (List.range maxS) _ _ (by simp) ?_ st hout
      intro b s _ hP b2 hfold
      exact except_foldlM_inv cn _ b hP
        (fun b3 c hc hP3 b4 hstep =>
          build_schedule_step_preserves g value maxS s cn b3 c hc hP3 b4 hstep)
        b2 hfold
    have hpair := ite_some_eq hsome
    have hsem : sem2 = sem := congrArg Prod.fst hpair
    have hitems : sortStrings (st.1 sem2) = items := congrArg Prod.snd hpair
    rw [← hitems] at hcid
    exact hinv sem2 cid (mem_sortStrings _ cid hcid)

/-- C8 counterexample: the synthetic gate identifiers come from the entropy source
(`uuid.uuid4()`); two runs drawing different identifiers produce different graphs —
the first run's gate node name does not even exist in the second run's graph — so
the pipeline is not deterministic "including the identifiers generated for
synthetic gate nodes". -/
theorem c8_gate_ids_counterexample :
    (create_graph_from_courses demoCourses demoStream).hasNode "#" = true ∧
    (create_graph_from_courses demoCourses demoStream2).hasNode "#" = false ∧
    create_graph_from_courses demoCourses demoStream ≠
      create_graph_from_courses demoCourses demoStream2 := by decide

/-- C8 (amended): with the identifier stream and the solver outcomes fixed, the
pipeline is a pure function of its inputs, and the gate identifiers never reach
the returned schedule: every identifier in a returned schedule is a non-logic item
node of the built graph. -/
theorem c8_schedule_only_items_amended :
    ∀ (course_list : List (String × Course)) (stream : Nat → String)
      (targets : List String) (cap maxS : Nat) (oracle : SolverOracle)
      (st : String) (sched : List (Nat × List String)),
    run_pipeline course_list stream targets cap maxS oracle = (st, some sched) →
    ∀ sem items, (sem, items) ∈ sched → ∀ cid ∈ items,
      (create_graph_from_courses course_list stream).hasNode cid = true ∧
      ((create_graph_from_courses course_list stream).attrs cid).logic.getD false
        = false := by
  intro cl stream targets cap maxS o st sched hrun sem items hmem cid hcid
  unfold run_pipeline at hrun
  have hcn : cid ∈ courseNodesOf (create_graph_from_courses cl stream)
      (pruned_relevant (create_graph_from_courses cl stream) targets) := by
    rcases plan_course_schedule_cp_cases (create_graph_from_courses cl stream)
        targets cap maxS o with
      h | h | h | h | h | ⟨code, h⟩ | ⟨sched2, h, hbuild⟩ | ⟨sched2, h, hbuild⟩ | h
    · rw [h] at hrun; simp at hrun
    · rw [h] at hrun; simp at hrun
    · rw [h] at hrun; simp at hrun
    · rw [h] at hrun; simp at hrun
    · rw [h] at hrun; simp at hrun
    · rw [h] at hrun; simp at hrun
    · rw [h] at hrun
      simp only [Prod.mk.injEq, Option.some.injEq] at hrun
      exact build_schedule_mem _ _ _ _ sched2 hbuild sem items
        (hrun.2 ▸ hmem) cid hcid
    · rw [h] at hrun
      simp only [Prod.mk.injEq, Option.some.injEq] at hrun
      exact build_schedule_mem _ _ _ _ sched2 hbuild sem items
        (hrun.2 ▸ hmem) cid hcid
    · rw [h] at hrun; simp at hrun
  have := List.mem_filter.mp hcn
  have hp := this.2
  simp only [Bool.and_eq_true, Bool.not_eq_true'] at hp
  exact ⟨hp.1, hp.2⟩

/-- Witness for the amended C8 on a concrete successful run. -/
theorem c8_schedule_only_items_amended_witness :
    (create_graph_from_courses demoCourses demoStream).hasNode "CSC111" = true ∧
    ((create_graph_from_courses demoCourses demoStream).attrs "CSC111").logic.getD
      false = false :=
  c8_schedule_only_items_amended demoCourses demoStream ["CSC111"] 5 8 oracleDemoOK
    "Optimal" [(0, ["CSC111"])] (by decide) 0 ["CSC111"] (by decide) "CSC111"
    (by decide)

/-! ### Graph-operation lemmas for the builder invariant -/

theorem edges_add_node (g : Graph) (n : String) (u : NodeAttrs) :
    (g.add_node n u).edges = g.edges := by
  unfold Graph.add_node; split <;> rfl

theorem edges_ensureNode (g : Graph) (n : String) :
    (g.ensureNode n).edges = g.edges := by
  unfold Graph.ensureNode; split <;> rfl

theorem edges_add_edge_mem {g : Graph} {u v : String} (h : (u, v) ∈ g.edges) :
    (g.add_edge u v).edges = g.edges := by
  unfold Graph.add_edge
  have h2 : ((g.ensureNode u).ensureNode v).edges = g.edges := by
    rw [edges_ensureNode, edges_ensureNode]
  rw [if_pos (by rw [h2]; exact h)]
  exact h2

theorem edges_add_edge_not_mem {g : Graph} {u v : String} (h : (u, v) ∉ g.edges) :
    (g.add_edge u v).edges = g.edges ++ [(u, v)] := by
  unfold Graph.add_edge
  have h2 : ((g.ensureNode u).ensureNode v).edges = g.edges := by
    rw [edges_ensureNode, edges_ensureNode]
  rw [if_neg (by rw [h2]; exact h)]
  simpa using h2

theorem hasNode_ensureNode (g : Graph) (n m : String) :
    (g.ensureNode n).hasNode m = (g.hasNode m || decide (n = m)) := by
  unfold Graph.ensureNode
  split
  · rename_i h
    by_cases hnm : n = m
    · subst hnm; simp [h]
    · simp [hnm]
  · unfold Graph.hasNode
    simp [List.any_append]

theorem hasNode_add_node (g : Graph) (n : String) (u : NodeAttrs) (m : String) :
    (g.add_node n u).hasNode m = (g.hasNode m || decide (n = m)) := by
  unfold Graph.add_node
  split
  · rename_i h
    have hmap : ∀ l : List (String × NodeAttrs),
        ((l.map (fun p => if p.1 = n then (p.1, mergeAttrs p.2 u) else p)).any
          (fun p => decide (p.1 = m))) = l.any (fun p => decide (p.1 = m)) := by
      intro l
      induction l with
      | nil => rfl
      | cons p ps ih => by_cases hp : p.1 = n <;> simp [hp, ih]
    show (g.nodes.map _).any _ = _
    rw [hmap]
    by_cases hnm : n = m
    · subst hnm
      have hh : g.hasNode n = true := h
      simp [Graph.hasNode] at hh ⊢
      exact hh
    · simp [Graph.hasNode, hnm]
  · unfold Graph.hasNode
    simp [List.any_append]

theorem nodes_add_edge (g : Graph) (u v : String) :
    (g.add_edge u v).nodes = ((g.ensureNode u).ensureNode v).nodes := by
  unfold Graph.add_edge
  by_cases hmem : (u, v) ∈ ((g.ensureNode u).ensureNode v).edges
  · rw [if_pos hmem]
  · rw [if_neg hmem]

theorem hasNode_add_edge (g : Graph) (u v m : String) :
    (g.add_edge u v).hasNode m = (g.hasNode m || decide (u = m) || decide (v = m)) := by
  have h1 : (g.add_edge u v).hasNode m = ((g.ensureNode u).ensureNode v).hasNode m := by
    unfold Graph.hasNode
    rw [nodes_add_edge]
  rw [h1, hasNode_ensureNode, hasNode_ensureNode]

theorem find?_map_merge (l : List (String × NodeAttrs)) (n m : String) (u : NodeAttrs)
    (hnm : m ≠ n) :
    (l.map (fun p => if p.1 = n then (p.1, mergeAttrs p.2 u) else p)).find?
      (fun p => decide (p.1 = m)) = l.find? (fun p => decide (p.1 = m)) := by
  induction l with
  | nil => rfl
  | cons p ps ih =>
    rw [List.map_cons]
    by_cases hpm : p.1 = m
    · have hpn : ¬ p.1 = n := by rw [hpm]; exact hnm
      rw [if_neg hpn]
      simp [List.find?, hpm]
    · by_cases hpn : p.1 = n
      · rw [if_pos hpn]
        simp [List.find?, hpm, ih]
      · rw [if_neg hpn]
        simp [List.find?, hpm, ih]

theorem attrs_set_edges (g : Graph) (e : List (String × String)) (m : String) :
    ({ g with edges := e } : Graph).attrs m = g.attrs m := rfl

theorem attrs_add_node_ne (g : Graph) (n : String) (u : NodeAttrs) (m : String)
    (hnm : m ≠ n) : (g.add_node n u).attrs m = g.attrs m := by
  unfold Graph.add_node
  split
  · unfold Graph.attrs
    show ((((g.nodes.map _).find? _)).map Prod.snd).getD _ = _
    rw [find?_map_merge g.nodes n m u hnm]
  · unfold Graph.attrs
    show (((g.nodes ++ [(n, u)]).find? _).map Prod.snd).getD _ = _
    rw [List.find?_append]
    have hnone : ([(n, u)].find? (fun p => decide (p.1 = m))) = none := by
      simp [List.find?, Ne.symm hnm]
    rw [hnone]
    simp

theorem attrs_add_node_fresh (g : Graph) (n : String) (u : NodeAttrs)
    (h : g.hasNode n = false) : (g.add_node n u).attrs n = u := by
  unfold Graph.add_node
  rw [if_neg (by simp [h])]
  unfold Graph.attrs
  show (((g.nodes ++ [(n, u)]).find? _).map Prod.snd).getD _ = _
  rw [List.find?_append]
  have hnone : g.nodes.find? (fun p => decide (p.1 = n)) = none := by
    rw [List.find?_eq_none]
    intro p hp
    intro hdec
    have : g.hasNode n = true := by
      unfold Graph.hasNode
      exact List.any_eq_true.mpr ⟨p, hp, hdec⟩
    rw [this] at h; cases h
  rw [hnone]
  simp [List.find?]

theorem attrs_add_node_merge (g : Graph) (n : String) (u : NodeAttrs)
    (h : g.hasNode n = true) : (g.add_node n u).attrs n = mergeAttrs (g.attrs n) u := by
  unfold Graph.add_node
  rw [if_pos h]
  unfold Graph.attrs
  show ((((g.nodes.map _).find? _)).map Prod.snd).getD _ = _
  have hfind : ∀ l : List (String × NodeAttrs),
      (l.map (fun p => if p.1 = n then (p.1, mergeAttrs p.2 u) else p)).find?
        (fun p => decide (p.1 = n)) =
      (l.find? (fun p => decide (p.1 = n))).map
        (fun p => (p.1, mergeAttrs p.2 u)) := by
    intro l
    induction l with
    | nil => rfl
    | cons p ps ih =>
      by_cases hp : p.1 = n
      · simp [List.find?, hp]
      · simp [List.find?, hp, ih]
  rw [hfind]
  cases hf : g.nodes.find? (fun p => decide (p.1 = n)) with
  | none =>
    exfalso
    have : g.hasNode n = true := h
    unfold Graph.hasNode at this
    obtain ⟨p, hp, hdec⟩ := List.any_eq_true.mp this
    have := List.find?_eq_none.mp hf p hp
    exact this hdec
  | some p => simp

theorem hasNode_of_ensureNode_base (g : Graph) (n m : String)
    (h : g.hasNode m = true) : (g.ensureNode n).hasNode m = true := by
  rw [hasNode_ensureNode, h]; rfl

theorem attrs_ensureNode_of_hasNode (g : Graph) (n m : String)
    (h : g.hasNode m = true) : (g.ensureNode n).attrs m = g.attrs m := by
  unfold Graph.ensureNode
  split
  · rfl
  · unfold Graph.attrs
    show (((g.nodes ++ [(n, ({} : NodeAttrs))]).find? _).map Prod.snd).getD _ = _
    rw [List.find?_append]
    unfold Graph.hasNode at h
    obtain ⟨p, hp, hdec⟩ := List.any_eq_true.mp h
    cases hf : g.nodes.find? (fun p => decide (p.1 = m)) with
    | none =>
      exfalso
      exact (List.find?_eq_none.mp hf p hp) hdec
    | some q => simp

theorem attrs_add_edge (g : Graph) (u v m : String) :
    (g.add_edge u v).attrs m = ((g.ensureNode u).ensureNode v).attrs m := by
  unfold Graph.attrs
  rw [nodes_add_edge]

theorem attrs_add_edge_of_hasNode (g : Graph) (u v m : String)
    (h : g.hasNode m = true) : (g.add_edge u v).attrs m = g.attrs m := by
  have hu : (g.ensureNode u).hasNode m = true := hasNode_of_ensureNode_base g u m h
  rw [attrs_add_edge, attrs_ensureNode_of_hasNode _ v m hu,
    attrs_ensureNode_of_hasNode _ u m h]

theorem outDeg_add_node (g : Graph) (n : String) (u : NodeAttrs) (m : String) :
    outDeg (g.add_node n u) m = outDeg g m := by
  unfold outDeg; rw [edges_add_node]

theorem outDeg_add_edge_mem {g : Graph} {u v : String} (h : (u, v) ∈ g.edges) (m : String) :
    outDeg (g.add_edge u v) m = outDeg g m := by
  unfold outDeg; rw [edges_add_edge_mem h]

theorem outDeg_add_edge_not_mem {g : Graph} {u v : String} (h : (u, v) ∉ g.edges)
    (m : String) :
    outDeg (g.add_edge u v) m = outDeg g m + (if u = m then 1 else 0) := by
  unfold outDeg
  rw [edges_add_edge_not_mem h, List.filter_append]
  by_cases hm : u = m <;> simp [hm]

theorem isGateNode_set_edges (g : Graph) (e : List (String × String)) (m : String) :
    isGateNode ({ g with edges := e } : Graph) m = isGateNode g m := rfl

theorem isGateNode_append_nongate (g : Graph) (n : String) (u : NodeAttrs)
    (hu : u.logic.getD false = false) (h : g.hasNode n = false) (m : String) :
    isGateNode ({ g with nodes := g.nodes ++ [(n, u)] } : Graph) m = isGateNode g m := by
  by_cases hmn : m = n
  · subst hmn
    unfold isGateNode
    rw [h]
    have hattrs : ({ g with nodes := g.nodes ++ [(m, u)] } : Graph).attrs m = u := by
      have := attrs_add_node_fresh g m u h
      unfold Graph.add_node at this
      rw [if_neg (by simp [h])] at this
      exact this
    rw [hattrs, hu]
    simp
  · unfold isGateNode
    have hhn : ({ g with nodes := g.nodes ++ [(n, u)] } : Graph).hasNode m = g.hasNode m := by
      have := hasNode_add_node g n u m
      unfold Graph.add_node at this
      rw [if_neg (by simp [h])] at this
      rw [this]
      have hnm2 : ¬ n = m := fun hh => hmn hh.symm
      simp [hnm2]
    have hattrs : ({ g with nodes := g.nodes ++ [(n, u)] } : Graph).attrs m = g.attrs m := by
      have := attrs_add_node_ne g n u m hmn
      unfold Graph.add_node at this
      rw [if_neg (by simp [h])] at this
      exact this
    rw [hhn, hattrs]

theorem isGateNode_ensureNode (g : Graph) (n m : String) :
    isGateNode (g.ensureNode n) m = isGateNode g m := by
  unfold Graph.ensureNode
  split
  · rfl
  · rename_i h
    exact isGateNode_append_nongate g n {} rfl (by simpa using h) m

theorem isGateNode_add_edge (g : Graph) (u v m : String) :
    isGateNode (g.add_edge u v) m = isGateNode g m := by
  have h1 : (g.add_edge u v).hasNode m = ((g.ensureNode u).ensureNode v).hasNode m := by
    unfold Graph.hasNode
    rw [nodes_add_edge]
  have hstep : isGateNode ((g.ensureNode u).ensureNode v) m = isGateNode g m := by
    rw [isGateNode_ensureNode, isGateNode_ensureNode]
  unfold isGateNode at hstep ⊢
  rw [h1, attrs_add_edge, hstep]

theorem hasNode_add_node_mono {g : Graph} {n : String} {u : NodeAttrs} {m : String}
    (h : g.hasNode m = true) : (g.add_node n u).hasNode m = true := by
  rw [hasNode_add_node, h]
  rfl

theorem hasNode_add_edge_mono {g : Graph} {u v m : String}
    (h : g.hasNode m = true) : (g.add_edge u v).hasNode m = true := by
  rw [hasNode_add_edge, h]
  rfl

theorem hasNode_add_edge_left (g : Graph) (u v : String) :
    (g.add_edge u v).hasNode u = true := by
  rw [hasNode_add_edge]
  simp

theorem hasNode_add_edge_right (g : Graph) (u v : String) :
    (g.add_edge u v).hasNode v = true := by
  rw [hasNode_add_edge]
  simp

theorem isGateNode_add_node_nongate {g : Graph} {n : String} {u : NodeAttrs}
    (hu : u.logic.getD false = false) (h : g.hasNode n = false) (m : String) :
    isGateNode (g.add_node n u) m = isGateNode g m := by
  unfold Graph.add_node
  rw [if_neg (by simp [h])]
  exact isGateNode_append_nongate g n u hu h m

theorem outDeg_eq_zero_of_not_node {g : Graph}
    (hends : ∀ e ∈ g.edges, g.hasNode e.1 = true ∧ g.hasNode e.2 = true)
    {n : String} (h : g.hasNode n = false) : outDeg g n = 0 := by
  unfold outDeg
  rw [List.length_eq_zero, List.filter_eq_nil_iff]
  intro e he hdec
  have he1 : e.1 = n := of_decide_eq_true hdec
  have := (hends e he).1
  rw [he1, h] at this
  cases this

/-- Composition of builder-step postconditions. -/
theorem ParsePost_step {stream : Nat → String} {g : Graph} {c : Nat}
    {mid res : Graph × Nat}
    (h1 : ParsePost stream g c mid) (h2 : ParsePost stream mid.1 mid.2 res) :
    ParsePost stream g c res :=
  ⟨h2.1, le_trans h1.2.1 h2.2.1, fun n hn => h2.2.2 n (h1.2.2 n hn)⟩

theorem ParsePost_id {stream : Nat → String} {g : Graph} {c : Nat}
    (h : BuildInv stream g c) : ParsePost stream g c (g, c) :=
  ⟨h, Nat.le_refl c, fun _ hn => hn⟩

/-- Adding a leaf's node (when absent) and its edge toward its consumer preserves
the builder invariant. -/
theorem leaf_step_inv (stream : Nat → String) (data : List String)
    (hdata : ∀ k, stream k ∉ data)
    (g : Graph) (c : Nat) (ch cid : String) (u : NodeAttrs)
    (hu : u.logic.getD false = false)
    (hch : ch ∈ data) (hInv : BuildInv stream g c) (hcid : g.hasNode cid = true) :
    ParsePost stream g c
      ((if g.hasNode ch then g else g.add_node ch u).add_edge ch cid, c) := by
  set g1 := if g.hasNode ch then g else g.add_node ch u with hg1
  have hg1nodeMono : ∀ m, g.hasNode m = true → g1.hasNode m = true := by
    intro m hm
    rw [hg1]
    split
    · exact hm
    · exact hasNode_add_node_mono hm
  have hg1nodeRev : ∀ m, g1.hasNode m = false → False ∨ True := fun _ _ => Or.inr trivial
  have hg1fresh : ∀ k, c ≤ k → g1.hasNode (stream k) = false := by
    intro k hk
    rw [hg1]
    split
    · exact hInv.fresh k hk
    · rename_i hno
      rw [hasNode_add_node, hInv.fresh k hk]
      have : ¬ ch = stream k := fun hh => hdata k (hh ▸ hch)
      simp [this]
  have hg1edges : g1.edges = g.edges := by
    rw [hg1]
    split
    · rfl
    · exact edges_add_node g ch u
  have hg1gate : ∀ m, isGateNode g1 m = isGateNode g m := by
    intro m
    rw [hg1]
    split
    · rfl
    · rename_i hno
      exact isGateNode_add_node_nongate hu (by simpa using hno) m
  have hg1out : ∀ m, outDeg g1 m = outDeg g m := by
    intro m
    rw [hg1]
    split
    · rfl
    · exact outDeg_add_node g ch u m
  have hg1ends : ∀ e ∈ g1.edges, g1.hasNode e.1 = true ∧ g1.hasNode e.2 = true := by
    intro e he
    rw [hg1edges] at he
    exact ⟨hg1nodeMono _ (hInv.ends e he).1, hg1nodeMono _ (hInv.ends e he).2⟩
  have hchn : ∀ n, isGateNode g n = true → ch ≠ n := by
    intro n hn hh
    obtain ⟨⟨k, _, hk⟩, _⟩ := hInv.gates n hn
    exact hdata k (by rw [hh, hk] at hch; exact hch)
  refine ⟨⟨?_, ?_, ?_⟩, Nat.le_refl c, ?_⟩
  · -- fresh
    intro k hk
    rw [hasNode_add_edge, hg1fresh k hk]
    have h1 : ¬ ch = stream k := fun hh => hdata k (hh ▸ hch)
    have h2 : ¬ cid = stream k := by
      intro hh
      have := hInv.fresh k hk
      rw [← hh, hcid] at this
      cases this
    simp [h1, h2]
  · -- gates
    intro n hn
    rw [isGateNode_add_edge, hg1gate] at hn
    obtain ⟨hex, hdeg⟩ := hInv.gates n hn
    refine ⟨hex, ?_⟩
    by_cases hmem : (ch, cid) ∈ g1.edges
    · rw [outDeg_add_edge_mem hmem, hg1out]
      exact hdeg
    · rw [outDeg_add_edge_not_mem hmem, hg1out, if_neg (hchn n hn), hdeg]
  · -- ends
    intro e he
    by_cases hmem : (ch, cid) ∈ g1.edges
    · rw [edges_add_edge_mem hmem] at he
      rw [hg1edges] at he
      exact ⟨hasNode_add_edge_mono (hg1nodeMono _ (hInv.ends e he).1),
             hasNode_add_edge_mono (hg1nodeMono _ (hInv.ends e he).2)⟩
    · rw [edges_add_edge_not_mem hmem] at he
      rcases List.mem_append.mp he with h1 | h2
      · rw [hg1edges] at h1
        exact ⟨hasNode_add_edge_mono (hg1nodeMono _ (hInv.ends e h1).1),
               hasNode_add_edge_mono (hg1nodeMono _ (hInv.ends e h1).2)⟩
      · have : e = (ch, cid) := List.mem_singleton.mp h2
        subst this
        exact ⟨hasNode_add_edge_left g1 ch cid, hasNode_add_edge_right g1 ch cid⟩
  · -- node monotonicity
    intro n hn
    exact hasNode_add_edge_mono (hg1nodeMono n hn)

/-- Creating a virtual logic node with the next drawn identifier and its single
outgoing edge to its consumer: the invariant advances to counter `c + 1`. -/
theorem gate_step_inv (stream : Nat → String)
    (hinj : ∀ i j : Nat, stream i = stream j → i = j)
    (g : Graph) (c : Nat) (cid : String) (u : NodeAttrs)
    (hu : u.logic = some true)
    (hInv : BuildInv stream g c) (hcid : g.hasNode cid = true) :
    BuildInv stream ((g.add_node (stream c) u).add_edge (stream c) cid) (c + 1) ∧
    ((g.add_node (stream c) u).add_edge (stream c) cid).hasNode (stream c) = true ∧
    (∀ n, g.hasNode n = true →
      ((g.add_node (stream c) u).add_edge (stream c) cid).hasNode n = true) := by
  have hfresh0 : g.hasNode (stream c) = false := hInv.fresh c (Nat.le_refl c)
  set g1 := g.add_node (stream c) u with hg1
  have hg1has : ∀ m, g1.hasNode m = (g.hasNode m || decide (stream c = m)) :=
    hasNode_add_node g (stream c) u
  have hg1vid : g1.hasNode (stream c) = true := by rw [hg1has]; simp
  have hg1edges : g1.edges = g.edges := edges_add_node g (stream c) u
  have hg1out : ∀ m, outDeg g1 m = outDeg g m := outDeg_add_node g (stream c) u
  have hg1gateSelf : isGateNode g1 (stream c) = true := by
    unfold isGateNode
    rw [hg1vid, attrs_add_node_fresh g (stream c) u hfresh0, hu]
    rfl
  have hg1gateNe : ∀ m, m ≠ stream c → isGateNode g1 m = isGateNode g m := by
    intro m hm
    unfold isGateNode
    rw [hg1has, attrs_add_node_ne g (stream c) u m hm]
    have : ¬ stream c = m := fun hh => hm hh.symm
    simp [this]
  have hmemno : (stream c, cid) ∉ g1.edges := by
    rw [hg1edges]
    intro hmem
    have := (hInv.ends _ hmem).1
    rw [hfresh0] at this
    cases this
  have houtdeg2 : ∀ m, outDeg (g1.add_edge (stream c) cid) m =
      outDeg g m + (if stream c = m then 1 else 0) := by
    intro m
    rw [outDeg_add_edge_not_mem hmemno, hg1out]
  have hvid2 : (g1.add_edge (stream c) cid).hasNode (stream c) = true :=
    hasNode_add_edge_mono hg1vid
  have hmono : ∀ n, g.hasNode n = true → (g1.add_edge (stream c) cid).hasNode n = true := by
    intro n hn
    refine hasNode_add_edge_mono ?_
    rw [hg1has, hn]
    rfl
  refine ⟨⟨?_, ?_, ?_⟩, hvid2, hmono⟩
  · -- fresh at c + 1
    intro k hk
    rw [hasNode_add_edge, hg1has, hInv.fresh k (Nat.le_of_succ_le hk)]
    have h1 : ¬ stream c = stream k := by
      intro hh
      have := hinj c k hh
      omega
    have h2 : ¬ cid = stream k := by
      intro hh
      have := hInv.fresh k (Nat.le_of_succ_le hk)
      rw [← hh, hcid] at this
      cases this
    simp [h1, h2]
  · -- gates at c + 1
    intro n hn
    rw [isGateNode_add_edge] at hn
    by_cases hns : n = stream c
    · subst hns
      refine ⟨⟨c, Nat.lt_succ_self c, rfl⟩, ?_⟩
      rw [houtdeg2, if_pos rfl,
        outDeg_eq_zero_of_not_node hInv.ends hfresh0]
    · rw [hg1gateNe n hns] at hn
      obtain ⟨⟨k, hk, hkeq⟩, hdeg⟩ := hInv.gates n hn
      refine ⟨⟨k, Nat.lt_succ_of_lt hk, hkeq⟩, ?_⟩
      rw [houtdeg2, if_neg (fun hh => hns hh.symm), hdeg]
  · -- edge endpoints are nodes
    intro e he
    rw [edges_add_edge_not_mem hmemno, hg1edges] at he
    rcases List.mem_append.mp he with h1 | h2
    · exact ⟨hmono _ (hInv.ends e h1).1, hmono _ (hInv.ends e h1).2⟩
    · have : e = (stream c, cid) := List.mem_singleton.mp h2
      subst this
      exact ⟨hvid2, hmono _ hcid⟩

mutual

/-- `parse_requisite_list` preserves the builder invariant whenever the uuid
stream is injective and never collides with a course name in `data`. -/
theorem parse_requisite_list_inv (data : List String) (stream : Nat → String)
    (hinj : ∀ i j : Nat, stream i = stream j → i = j)
    (hdata : ∀ k, stream k ∉ data) :
    ∀ (req : ReqList) (cid : String) (g : Graph) (c : Nat),
      BuildInv stream g c → g.hasNode cid = true →
      ParsePost stream g c (parse_requisite_list req cid g data c stream)
  | .nil, _, _, _, hInv, _ => ParsePost_id hInv
  | .cons _ .nil, _, _, _, hInv, _ => ParsePost_id hInv
  | .cons _ (.cons (ReqElem.list l) .nil), cid, g, c, hInv, hcid =>
    parse_requisite_list_inv data stream hinj hdata l cid g c hInv hcid
  | .cons _ (.cons (ReqElem.str ch) .nil), cid, g, c, hInv, hcid => by
    show ParsePost stream g c
      (if ch ∈ data then
        ((if g.hasNode ch then g else g.add_node ch { logic := some false }).add_edge ch cid, c)
      else (g, c))
    by_cases hch : ch ∈ data
    · rw [if_pos hch]
      exact leaf_step_inv stream data hdata g c ch cid { logic := some false } rfl hch hInv hcid
    · rw [if_neg hch]
      exact ParsePost_id hInv
  | .cons op (.cons (ReqElem.str a) (.cons c2 rest)), cid, g, c, hInv, hcid => by
    show ParsePost stream g c
      (parse_children (.cons (ReqElem.str a) (.cons c2 rest)) (stream c)
        ((g.add_node (stream c)
          { type := some op, logic := some true, color := some (255, 255, 255) }).add_edge
            (stream c) cid) data (c + 1) stream)
    obtain ⟨hInv2, hvid, hmono⟩ := gate_step_inv stream hinj g c cid
      { type := some op, logic := some true, color := some (255, 255, 255) } rfl hInv hcid
    have hpost := parse_children_inv data stream hinj hdata (.cons (ReqElem.str a) (.cons c2 rest))
      (stream c)
      ((g.add_node (stream c)
        { type := some op, logic := some true, color := some (255, 255, 255) }).add_edge
          (stream c) cid)
      (c + 1) hInv2 hvid
    exact ⟨hpost.1, le_trans (Nat.le_succ c) hpost.2.1,
      fun n hn => hpost.2.2 n (hmono n hn)⟩
  | .cons op (.cons (ReqElem.list a) (.cons c2 rest)), cid, g, c, hInv, hcid => by
    show ParsePost stream g c
      (parse_children (.cons (ReqElem.list a) (.cons c2 rest)) (stream c)
        ((g.add_node (stream c)
          { type := some op, logic := some true, color := some (255, 255, 255) }).add_edge
            (stream c) cid) data (c + 1) stream)
    obtain ⟨hInv2, hvid, hmono⟩ := gate_step_inv stream hinj g c cid
      { type := some op, logic := some true, color := some (255, 255, 255) } rfl hInv hcid
    have hpost := parse_children_inv data stream hinj hdata (.cons (ReqElem.list a) (.cons c2 rest))
      (stream c)
      ((g.add_node (stream c)
        { type := some op, logic := some true, color := some (255, 255, 255) }).add_edge
          (stream c) cid)
      (c + 1) hInv2 hvid
    exact ⟨hpost.1, le_trans (Nat.le_succ c) hpost.2.1,
      fun n hn => hpost.2.2 n (hmono n hn)⟩

/-- The child loop of `parse_requisite_list` preserves the builder invariant. -/
theorem parse_children_inv (data : List String) (stream : Nat → String)
    (hinj : ∀ i j : Nat, stream i = stream j → i = j)
    (hdata : ∀ k, stream k ∉ data) :
    ∀ (items : ReqList) (v_id : String) (g : Graph) (c : Nat),
      BuildInv stream g c → g.hasNode v_id = true →
      ParsePost stream g c (parse_children items v_id g data c stream)
  | .nil, _, _, _, hInv, _ => ParsePost_id hInv
  | .cons (ReqElem.list l) rest, v_id, g, c, hInv, hvid => by
    have h1 := parse_requisite_list_inv data stream hinj hdata l v_id g c hInv hvid
    have h2 := parse_children_inv data stream hinj hdata rest v_id
      (parse_requisite_list l v_id g data c stream).1
      (parse_requisite_list l v_id g data c stream).2
      h1.1 (h1.2.2 v_id hvid)
    exact ParsePost_step h1 h2
  | .cons (ReqElem.str it) rest, v_id, g, c, hInv, hvid => by
    show ParsePost stream g c
      (parse_children rest v_id
        (if it ∈ data then
          ((if g.hasNode it then g
            else g.add_node it { logic := some false, color := some (255, 255, 255) }).add_edge
              it v_id, c)
        else (g, c)).1 data
        (if it ∈ data then
          ((if g.hasNode it then g
            else g.add_node it { logic := some false, color := some (255, 255, 255) }).add_edge
              it v_id, c)
        else (g, c)).2 stream)
    by_cases hit : it ∈ data
    · rw [if_pos hit]
      have h1 := leaf_step_inv stream data hdata g c it v_id
        { logic := some false, color := some (255, 255, 255) } rfl hit hInv hvid
      have h2 := parse_children_inv data stream hinj hdata rest v_id
        ((if g.hasNode it then g
          else g.add_node it { logic := some false, color := some (255, 255, 255) }).add_edge
            it v_id) c h1.1 (h1.2.2 v_id hvid)
      exact ParsePost_step h1 h2
    · rw [if_neg hit]
      exact parse_children_inv data stream hinj hdata rest v_id g c hInv hvid

end

/-- Adding (or merging) a node whose update dict carries `logic = False` never
creates a gate node: any gate of the result is a distinct gate of the base graph. -/
theorem isGateNode_add_node_somefalse {g : Graph} {n : String} {u : NodeAttrs}
    (hu : u.logic = some false) (m : String) :
    isGateNode (g.add_node n u) m = true → m ≠ n ∧ isGateNode g m = true := by
  intro h
  by_cases hmn : m = n
  · subst hmn
    exfalso
    unfold isGateNode at h
    by_cases hnode : g.hasNode m = true
    · rw [attrs_add_node_merge g m u hnode] at h
      have hlog : (mergeAttrs (g.attrs m) u).logic = some false := by
        unfold mergeAttrs
        rw [hu]
        rfl
      rw [hlog] at h
      simp at h
    · have hF : g.hasNode m = false := Bool.eq_false_iff.mpr hnode
      rw [attrs_add_node_fresh g m u hF, hu] at h
      simp at h
  · refine ⟨hmn, ?_⟩
    unfold isGateNode at h ⊢
    rw [hasNode_add_node, attrs_add_node_ne g n u m hmn] at h
    have hne : ¬ n = m := fun hh => hmn hh.symm
    simp [hne] at h
    simp [h.1, h.2]

/-- Adding a course's item node (logic `False`, name drawn from `data`) preserves
the builder invariant at the same counter. -/
theorem course_node_step_inv (stream : Nat → String) (data : List String)
    (hdata : ∀ k, stream k ∉ data)
    (g : Graph) (c : Nat) (nm : String) (u : NodeAttrs)
    (hu : u.logic = some false) (hnm : nm ∈ data)
    (hInv : BuildInv stream g c) :
    BuildInv stream (g.add_node nm u) c := by
  refine ⟨?_, ?_, ?_⟩
  · intro k hk
    rw [hasNode_add_node, hInv.fresh k hk]
    have hne : ¬ nm = stream k := fun hh => hdata k (hh ▸ hnm)
    simp [hne]
  · intro n hn
    obtain ⟨_, hgate⟩ := isGateNode_add_node_somefalse hu n hn
    obtain ⟨hex, hdeg⟩ := hInv.gates n hgate
    exact ⟨hex, by rw [outDeg_add_node]; exact hdeg⟩
  · intro e he
    rw [edges_add_node] at he
    exact ⟨hasNode_add_node_mono (hInv.ends e he).1,
      hasNode_add_node_mono (hInv.ends e he).2⟩

/-- One loop iteration of `create_graph_from_courses` preserves the builder
invariant (uuids injective and disjoint from the course key set). -/
theorem create_step_inv (course_list : List (String × Course)) (stream : Nat → String)
    (hinj : ∀ i j : Nat, stream i = stream j → i = j)
    (hdata : ∀ k, stream k ∉ course_list.map Prod.fst)
    (g : Graph) (c : Nat) (nc : String × Course)
    (hnc : nc.1 ∈ course_list.map Prod.fst) (hInv : BuildInv stream g c) :
    BuildInv stream (create_graph_course_step course_list stream (g, c) nc).1
      (create_graph_course_step course_list stream (g, c) nc).2 := by
  have hInvg : BuildInv stream (g.add_node nc.1 (courseNodeAttrs nc)) c :=
    course_node_step_inv stream (course_list.map Prod.fst) hdata g c nc.1
      (courseNodeAttrs nc) rfl hnc hInv
  unfold create_graph_course_step
  by_cases hpre : nc.2.prereq_list ≠ ReqList.nil
  · rw [if_pos hpre]
    have hcid : (g.add_node nc.1 (courseNodeAttrs nc)).hasNode nc.1 = true := by
      rw [hasNode_add_node]
      simp
    exact (parse_requisite_list_inv (course_list.map Prod.fst) stream hinj hdata
      nc.2.prereq_list nc.1 (g.add_node nc.1 (courseNodeAttrs nc)) c hInvg hcid).1
  · rw [if_neg hpre]
    exact hInvg

/-- The whole course loop preserves the builder invariant. -/
theorem create_fold_inv (course_list : List (String × Course)) (stream : Nat → String)
    (hinj : ∀ i j : Nat, stream i = stream j → i = j)
    (hdata : ∀ k, stream k ∉ course_list.map Prod.fst) :
    ∀ (cl : List (String × Course)) (g : Graph) (c : Nat),
      BuildInv stream g c → (∀ p ∈ cl, p.1 ∈ course_list.map Prod.fst) →
      BuildInv stream
        (cl.foldl (create_graph_course_step course_list stream) (g, c)).1
        (cl.foldl (create_graph_course_step course_list stream) (g, c)).2 := by
  intro cl
  induction cl with
  | nil => intro g c hInv _; exact hInv
  | cons nc rest ih =>
    intro g c hInv hmem
    rw [List.foldl_cons]
    have hstep := create_step_inv course_list stream hinj hdata g c nc
      (hmem nc (List.mem_cons_self nc rest)) hInv
    have hrest := ih (create_graph_course_step course_list stream (g, c) nc).1
      (create_graph_course_step course_list stream (g, c) nc).2 hstep
      (fun p hp => hmem p (List.mem_cons_of_mem nc hp))
    exact hrest

/-- The empty graph together with counter `0` satisfies the builder invariant. -/
theorem buildInv_empty (stream : Nat → String) : BuildInv stream ⟨[], []⟩ 0 :=
  ⟨fun _ _ => rfl,
   fun n hn => absurd hn (by unfold isGateNode Graph.hasNode; simp),
   fun e he => absurd he (List.not_mem_nil e)⟩

/-- The demo uuid stream draws pairwise distinct identifiers. -/
theorem demoStream_inj : ∀ i j : Nat, demoStream i = demoStream j → i = j := by
  intro i j h
  have h2 := congrArg (fun s : String => s.data.length) h
  simp only [demoStream, List.length_replicate] at h2
  omega

/-- The demo uuid stream never collides with a course code of `demoCourses`. -/
theorem demoStream_not_course : ∀ k, demoStream k ∉ demoCourses.map Prod.fst := by
  intro k h
  simp only [demoCourses, List.map_cons, List.map_nil, List.mem_cons,
    List.not_mem_nil, or_false] at h
  have h2 := congrArg (fun s : String => s.data.head?) h
  simp only [] at h2
  have h1 : (demoStream k).data.head? = some '#' := by
    simp [demoStream, List.replicate_succ]
  have h3 : ("CSC111" : String).data.head? = some 'C' := rfl
  rw [h1, h3] at h2
  exact absurd h2 (by decide)

/-- C2 (counterexample to the in-degree half): `demoCourses` has one course whose
`all` requisite list names only identifiers absent from the course dict, so both
child leaves are dropped; the builder still creates the gate node (first uuid
draw, `"#"` under `demoStream`) with its consumer edge, and that gate node has
zero incoming edges, refuting "every gate node has at least 2 incoming edges". -/
theorem c2_gate_indegree_counterexample :
    isGateNode gDemo "#" = true ∧ inDeg gDemo "#" = 0 := by decide

/-- C2 (amended): in the graph built by `create_graph_from_courses`, provided the
uuid stream is injective and never collides with a course code, every gate node
(`logic = True`) has exactly one outgoing edge — to its consumer.  The other half
of the claim is false: a gate can end with fewer than 2 incoming edges (down to
zero) when its child leaves reference identifiers absent from the item mapping
and are dropped (see the counterexample). -/
theorem c2_gate_outdegree_amended (course_list : List (String × Course))
    (stream : Nat → String)
    (hinj : ∀ i j : Nat, stream i = stream j → i = j)
    (hdata : ∀ k, stream k ∉ course_list.map Prod.fst)
    (n : String)
    (hn : isGateNode (create_graph_from_courses course_list stream) n = true) :
    outDeg (create_graph_from_courses course_list stream) n = 1 := by
  have h := create_fold_inv course_list stream hinj hdata course_list ⟨[], []⟩ 0
    (buildInv_empty stream) (fun p hp => List.mem_map_of_mem Prod.fst hp)
  unfold create_graph_from_courses at hn
  exact (h.gates n hn).2

/-- C2 witness: the demo gate node `"#"` indeed has out-degree exactly 1. -/
theorem c2_gate_outdegree_amended_witness :
    outDeg (create_graph_from_courses demoCourses demoStream) "#" = 1 :=
  c2_gate_outdegree_amended demoCourses demoStream demoStream_inj
    demoStream_not_course "#" (by decide)

end UTCX
